import Mathlib

/-!
Verification of the role-hierarchy / token-lifecycle core of `local_cmapi`.

The Python sources under `app/` are shallowly embedded: ORM rows become
structures, tables become lists of rows in primary-key order, the unguarded
`while current: current = current.parent` loops and the recursive traversals
become fuel-majorised functions whose `none` result means "the Python loop
would still be running after `fuel` steps", and raised `HTTPException`s /
`ValueError`s become `Except` errors.
-/

namespace LocalCmapi

/-- Embedding of a row of the `roles` table (`app/models/role.py`): primary key
`id`, unique `name`, optional `parent_id` self-link, the stored hierarchy
`level`, and the set of names of the directly assigned permissions (the
`role_permissions` association; permission names are unique). -/
structure Role where
  id : Nat
  name : String
  parent_id : Option Nat
  level : Nat
  perms : Finset String
deriving DecidableEq

/-- Embedding of the `roles` table: its rows in primary-key order. -/
abbrev RoleGraph := List Role

/-- Primary keys present in the table. -/
def ids (g : RoleGraph) : List Nat := g.map (·.id)

/-- Primary keys present in the table, as a finite set. -/
def idsF (g : RoleGraph) : Finset Nat := (ids g).toFinset

/-- Embedding of `db.get(Role, i)`: lookup of a row by primary key. -/
def getRole (g : RoleGraph) (i : Nat) : Option Role := g.find? (fun r => r.id == i)

/-- Embedding of the ORM relationship `role.parent`: follow `parent_id`;
`none` when there is no `parent_id` or when it names no existing row. -/
def roleParent (g : RoleGraph) (r : Role) : Option Role :=
  match r.parent_id with
  | none => none
  | some p => getRole g p

/-- Embedding of the ORM relationship `role.children`: the rows whose
`parent_id` equals `i`. -/
def childrenOf (g : RoleGraph) (i : Nat) : List Role :=
  g.filter (fun r => r.parent_id == some i)

/-- Walk `current = current.parent` for at most `fuel` steps; `true` iff the
walk reaches `none` within the budget, i.e. iff the unguarded `while current:`
loops of the source would terminate that fast starting from `cur`. -/
def rooted (g : RoleGraph) : Nat → Option Role → Bool
  | _, none => true
  | 0, some _ => false
  | fuel + 1, some r => rooted g fuel (roleParent g r)

/-- The rows visited by the parent walk starting at `cur` (at most `fuel`). -/
def chainRoles (g : RoleGraph) : Nat → Option Role → List Role
  | _, none => []
  | 0, some _ => []
  | fuel + 1, some r => r :: chainRoles g fuel (roleParent g r)

/-- The ids visited by the parent walk starting at `cur`. -/
def chainIds (g : RoleGraph) (fuel : Nat) (c : Option Role) : List Nat :=
  (chainRoles g fuel c).map (·.id)

/-- Primary-key uniqueness of the `roles` table. -/
def NodupIds (g : RoleGraph) : Prop := (ids g).Nodup

instance (g : RoleGraph) : Decidable (NodupIds g) :=
  inferInstanceAs (Decidable (ids g).Nodup)

/-- The table has no `parent_id` cycle reachable upward from any row: every
parent walk terminates within `g.length` steps. -/
def Acyclic (g : RoleGraph) : Prop := ∀ r ∈ g, rooted g g.length (some r) = true

instance (g : RoleGraph) : Decidable (Acyclic g) :=
  inferInstanceAs (Decidable (∀ r ∈ g, rooted g g.length (some r) = true))

/-- Embedding of `Role.get_all_permissions`: the direct permissions plus the
parent's, with the `visited_roles` guard. `fuel` majorises the recursion depth
(the Python recursion always terminates because `visited_roles` grows at every
call, so a large enough `fuel` reproduces it exactly). -/
def getAllPermissions (g : RoleGraph) : Nat → Role → Finset Nat → Finset String
  | 0, _, _ => ∅
  | fuel + 1, r, visited =>
    if r.id ∈ visited then ∅
    else
      match roleParent g r with
      | none => r.perms
      | some p => r.perms ∪ getAllPermissions g fuel p (insert r.id visited)

/-- Embedding of the call `role.get_all_permissions()` (no visited set yet);
`g.length + 1` units of fuel are enough for any row of `g` (proved below). -/
def getAllPermissionsTop (g : RoleGraph) (r : Role) : Finset String :=
  getAllPermissions g (g.length + 1) r ∅

/-- Embedding of `Role.get_ancestors`: the parent chain strictly above `r`. -/
def ancestorsOf (g : RoleGraph) (r : Role) : List Role :=
  chainRoles g g.length (roleParent g r)

/-- Union of the direct permission sets of a list of roles. -/
def unionPerms (l : List Role) : Finset String :=
  l.foldr (fun r acc => r.perms ∪ acc) ∅

/-- Spec-side definition, for comparison with `getAllPermissions`: "the union
of a role's own permissions and all permissions of its ancestor roles". -/
def specEffectivePermissions (g : RoleGraph) (r : Role) : Finset String :=
  r.perms ∪ unionPerms (ancestorsOf g r)

/-- Shared shape of `Role.is_ancestor_of` and `_would_create_cycle`: walk up
from `cur` looking for `target`. `none` means the unguarded `while` loop of
the source would still be running after `fuel` steps. -/
def findIdUp (g : RoleGraph) (target : Nat) : Nat → Option Role → Option Bool
  | _, none => some false
  | 0, some _ => none
  | fuel + 1, some r =>
    if r.id = target then some true else findIdUp g target fuel (roleParent g r)

/-- Embedding of `Role.is_ancestor_of(self, other)`: walk `other`'s parent
chain (starting at `other.parent`) looking for `self.id`. -/
def isAncestorOf (g : RoleGraph) (fuel : Nat) (self other : Role) : Option Bool :=
  findIdUp g self.id fuel (roleParent g other)

/-- Embedding of `RoleHierarchyService._would_create_cycle(role, potential_parent)`:
walk up from `potential_parent` itself looking for `role.id`. -/
def wouldCreateCycle (g : RoleGraph) (fuel : Nat) (roleId : Nat) (pp : Role) : Option Bool :=
  findIdUp g roleId fuel (some pp)

/-- Walk `current = current.parent` for exactly `k` steps (`none` once the
walk has fallen off a root). -/
def walkN (g : RoleGraph) : Nat → Option Role → Option Role
  | 0, c => c
  | k + 1, c =>
    match c with
    | none => none
    | some r => walkN g k (roleParent g r)

/-- The stored level of row `i` (`0` when the row is absent; only ever used on
present rows). -/
def levelAt (g : RoleGraph) (i : Nat) : Nat :=
  match getRole g i with
  | none => 0
  | some r => r.level

/-- The length of the full parent chain of `i` (head included): `1` for a
live root, `1 +` parent's depth generally. Fuel `g.length` exhausts the chain
on cycle-free graphs. -/
def depth (g : RoleGraph) (i : Nat) : Nat :=
  (chainRoles g g.length (getRole g i)).length

/-- Row `j` lies in the subtree of `anc`: `anc` appears on `j`'s parent chain
(`j` itself included). -/
def InSubtree (g : RoleGraph) (anc j : Nat) : Prop :=
  anc ∈ chainIds g g.length (getRole g j)

instance (g : RoleGraph) (anc j : Nat) : Decidable (InSubtree g anc j) :=
  inferInstanceAs (Decidable (anc ∈ chainIds g g.length (getRole g j)))

/-- Change the level of a row when its id matches. -/
def lvlAdj (i lvl : Nat) (r : Role) : Role :=
  if r.id = i then { r with level := lvl } else r

/-- Overwrite the stored `level` of row `i`. -/
def setLevel (g : RoleGraph) (i : Nat) (lvl : Nat) : RoleGraph :=
  g.map (lvlAdj i lvl)

/-- Change the parent of a row when its id matches. -/
def parAdj (i : Nat) (p : Option Nat) (r : Role) : Role :=
  if r.id = i then { r with parent_id := p } else r

/-- Overwrite the stored `parent_id` of row `i`. -/
def setParentId (g : RoleGraph) (i : Nat) (p : Option Nat) : RoleGraph :=
  g.map (parAdj i p)

/-- Embedding of the value `Role.update_level` assigns: `parent.level + 1`, or
`0` for a role without (resolvable) parent. This is also the `expected_level`
that `validate_hierarchy_integrity` compares against. -/
def expectedLevel (g : RoleGraph) (r : Role) : Nat :=
  match roleParent g r with
  | none => 0
  | some p => p.level + 1

/-- Embedding of `RoleHierarchyService._update_hierarchy_levels` as an
explicit depth-first worklist (the list is the Python call stack, so the
visit order and the sequence of level writes are exactly those of the
recursion): pop a role id, store `expected_level` as its level, push its
children. The Python code has no visited guard; `fuel` bounds the number of
processed nodes and `none` means the recursion would still be running after
`fuel` nested calls — on a `children` cycle it recurses forever. -/
def updateLoop : Nat → RoleGraph → List Nat → Option RoleGraph
  | _, g, [] => some g
  | 0, _, _ :: _ => none
  | fuel + 1, g, rid :: rest =>
    match getRole g rid with
    | none => updateLoop fuel g rest
    | some r =>
      let g' := setLevel g rid (expectedLevel g r)
      updateLoop fuel g' (((childrenOf g' rid).map (·.id)) ++ rest)

/-- The call `_update_hierarchy_levels(db, role)` itself. -/
def updateHierarchyLevels (g : RoleGraph) (rid : Nat) (fuel : Nat) : Option RoleGraph :=
  updateLoop fuel g [rid]

/-- Embedding of `fix_role_and_children` inside `fix_hierarchy_levels`, as the
same kind of depth-first worklist: pop `(rid, expected)`, store `expected` as
`rid`'s level counting an actual change, push the children paired with
`expected + 1`. No visited guard exists here either. -/
def fixLoop : Nat → RoleGraph → List (Nat × Nat) → Nat → Option (RoleGraph × Nat)
  | _, g, [], cnt => some (g, cnt)
  | 0, _, _ :: _, _ => none
  | fuel + 1, g, (rid, expected) :: rest, cnt =>
    match getRole g rid with
    | none => fixLoop fuel g rest cnt
    | some r =>
      let gc := if r.level = expected then (g, cnt) else (setLevel g rid expected, cnt + 1)
      fixLoop fuel gc.1 (((childrenOf gc.1 rid).map (fun c => (c.id, expected + 1))) ++ rest) gc.2

/-- Embedding of `db.query(Role).filter(Role.parent_id.is_(None))`. -/
def rootRoles (g : RoleGraph) : List Role := g.filter (fun r => r.parent_id == none)

/-- Embedding of `RoleHierarchyService.fix_hierarchy_levels`: run
`fix_role_and_children(root, 0)` over every root; returns the repaired graph
and `fixed_count`. Fuel `g.length + 1` is enough on every cycle-free graph
(proved below). -/
def fixHierarchyLevels (g : RoleGraph) : Option (RoleGraph × Nat) :=
  fixLoop (g.length + 1) g ((rootRoles g).map (fun r => (r.id, 0))) 0

/-- Embedding of the `incorrect_level` entries reported by
`validate_hierarchy_integrity`: the ids of the rows whose stored `level`
differs from `expected_level`. -/
def incorrectLevelIssues (g : RoleGraph) : List Nat :=
  (g.filter (fun r => r.level != expectedLevel g r)).map (·.id)

/-- Every stored `level` matches `expected_level` (no `incorrect_level` issue). -/
def Consistent (g : RoleGraph) : Prop := ∀ r ∈ g, r.level = expectedLevel g r

/-- Errors raised by the hierarchy service (`ValueError`s in the source) plus
`fuelOut`, the marker for a source loop that would never have returned. -/
inductive HErr
  | roleNotFound
  | parentNotFound
  | cycleDetected
  | descendantParent
  | duplicate
  | fuelOut
deriving DecidableEq

/-- The level of a freshly created role: `0` without a (truthy, resolvable)
parent, `parent.level + 1` otherwise; `none` when the named parent is absent
(`ParentNotFound`). -/
def newRoleLevel : RoleGraph → Option Nat → Option Nat
  | _, none => some 0
  | g, some p =>
    if p = 0 then some 0 else (getRole g p).map (fun pr => pr.level + 1)

/-- Embedding of `RoleHierarchyService.create_role_with_parent`: validate the
parent when `parent_id` is truthy (Python: `if parent_id:` — `0` skips the
validation), compute the level, insert the row. The fresh autoincrement key is
the explicit `newId` argument; `duplicate` stands for the database rejecting a
reused primary key or a duplicate name at commit. -/
def createRole (g : RoleGraph) (newId : Nat) (nm : String) (parent_id : Option Nat) :
    Except HErr RoleGraph :=
  if newId = 0 ∨ newId ∈ ids g ∨ nm ∈ g.map (·.name) then .error .duplicate
  else
    match newRoleLevel g parent_id with
    | none => .error .parentNotFound
    | some lvl => .ok (g ++ [⟨newId, nm, parent_id, lvl, ∅⟩])

/-- The two cycle guards of `set_role_parent`: `_would_create_cycle(role, pr)`
first, `role.is_ancestor_of(pr)` second. -/
def checkCycle (g : RoleGraph) (role pr : Role) : Except HErr Unit :=
  match wouldCreateCycle g (g.length + 1) role.id pr with
  | none => .error .fuelOut
  | some true => .error .cycleDetected
  | some false =>
    match isAncestorOf g (g.length + 1) role pr with
    | none => .error .fuelOut
    | some true => .error .descendantParent
    | some false => .ok ()

/-- The validation block of `set_role_parent`: when `parent_id` is truthy
(Python: `if parent_id:` — `0` skips everything) check existence, then the
cycle guards. -/
def validateParent (g : RoleGraph) (role : Role) (parent_id : Option Nat) :
    Except HErr Unit :=
  match parent_id with
  | none => .ok ()
  | some p =>
    if p = 0 then .ok ()
    else
      match getRole g p with
      | none => .error .parentNotFound
      | some pr => checkCycle g role pr

/-- Embedding of `RoleHierarchyService.set_role_parent`: look the role up,
validate the new parent, then assign `parent_id` and cascade the levels with
`_update_hierarchy_levels`. All `ValueError`s are raised before any mutation. -/
def setRoleParent (g : RoleGraph) (rid : Nat) (parent_id : Option Nat) :
    Except HErr RoleGraph :=
  match getRole g rid with
  | none => .error .roleNotFound
  | some role =>
    match validateParent g role parent_id with
    | .error e => .error e
    | .ok _ =>
      let g' := setParentId g rid parent_id
      match updateLoop (g'.length + 1) g' [rid] with
      | none => .error .fuelOut
      | some g'' => .ok g''

/-- The structural mutations of the hierarchy service (no deletions). -/
inductive HierOp
  | create (newId : Nat) (nm : String) (parent : Option Nat)
  | reparent (rid : Nat) (parent : Option Nat)

/-- Apply one service call. -/
def applyOp (g : RoleGraph) : HierOp → Except HErr RoleGraph
  | .create i nm p => createRole g i nm p
  | .reparent rid p => setRoleParent g rid p

/-- The stored graph after one service call: a failing call raises before any
mutation, leaving the table unchanged. -/
def applyOpState (g : RoleGraph) (op : HierOp) : RoleGraph :=
  match applyOp g op with
  | .error _ => g
  | .ok g' => g'

/-- The stored graph after a sequence of service calls. -/
def applyOps (g : RoleGraph) (l : List HierOp) : RoleGraph := l.foldl applyOpState g

/-- The id-and-parent skeleton of a row — everything the traversal structure
depends on. -/
def strip (r : Role) : Nat × Option Nat := (r.id, r.parent_id)

/-- Two tables with the same skeleton (same rows up to stored levels, names
and permission sets that the walks never read — in this development the two
differ only in levels). -/
def StructEq (g g' : RoleGraph) : Prop := g.map strip = g'.map strip

/-- Every `parent_id` is either a live id or the dead value `0` (the only id
the service ever assigns without validating, thanks to Python's falsy `0`);
autoincrement primary keys start at `1`, so `0` never becomes live. -/
def ParentsOk (g : RoleGraph) : Prop :=
  ∀ r ∈ g, ∀ p, r.parent_id = some p → p ∈ ids g ∨ p = 0

/-- No row carries the impossible autoincrement key `0`. -/
def ZeroFree (g : RoleGraph) : Prop := 0 ∉ ids g

instance (g : RoleGraph) : Decidable (ZeroFree g) :=
  inferInstanceAs (Decidable (0 ∉ ids g))

/-- The standing invariant of the role table: unique keys, no key `0`,
parents live-or-`0`, and no reachable `parent_id` cycle. -/
def HierInv (g : RoleGraph) : Prop :=
  NodupIds g ∧ ZeroFree g ∧ ParentsOk g ∧ Acyclic g

/-- `HierInv` plus level consistency. -/
def HierInvC (g : RoleGraph) : Prop := HierInv g ∧ Consistent g

/-- One `parent_id` edge: the row with id `i` names `j` as parent. -/
def ParentRel (g : RoleGraph) (i j : Nat) : Prop :=
  ∃ r ∈ g, r.id = i ∧ r.parent_id = some j

/-- The ids a worklist still touches: every live id lying in the subtree of
some listed id. -/
def touchedF (g : RoleGraph) (l : List Nat) : Finset Nat :=
  (idsF g).filter (fun j => ∃ c ∈ l, InSubtree g c j)

/-- The id of the resolved parent of row `j` (`none` for roots, dead ids and
dangling links). -/
def parentIdOf (g : RoleGraph) (j : Nat) : Option Nat :=
  match getRole g j with
  | none => none
  | some r =>
    match roleParent g r with
    | none => none
    | some p => some p.id

/-- The level `_update_hierarchy_levels` stores when it pops id `c`. -/
def popLevel (g : RoleGraph) (c : Nat) : Nat :=
  match getRole g c with
  | none => 0
  | some r => expectedLevel g r

/-- A corrupt two-row table whose `parent_id` links form the cycle `1 ↔ 2` —
data the service's guards never produce, but exactly the "already-corrupt
data" the spec says the traversals defend against. -/
def gCyc : RoleGraph := [⟨1, "a", some 2, 0, ∅⟩, ⟨2, "b", some 1, 1, ∅⟩]

/-- A small cycle-free table whose stored levels are wrong (`2` sits under the
root `1` but stores level `5`). -/
def gW : RoleGraph := [⟨1, "a", none, 0, ∅⟩, ⟨2, "b", some 1, 5, ∅⟩]

/-! ## Tokens, verification and the blacklist -/

/-- Embedding of the JWT payload fields the verification paths read
(`_build_claims` in `app/core/security.py` issues `sub`, `iss`, `iat`, `exp`,
`jti`, `typ`, plus caller-supplied extra claims, which is how a separate
`"type"` claim can be present). Timestamps are integer epoch seconds. -/
structure Claims where
  sub : Option String
  typClaim : Option String
  typeClaim : Option String
  exp : Int
  jti : String
  iss : Option String
deriving DecidableEq

/-- Embedding of a presented token: its decoded payload together with the
outcome of the cryptographic signature/format check that `jwt.decode`
performs (abstracted to the `sigValid` flag). -/
structure Token where
  claims : Claims
  sigValid : Bool
deriving DecidableEq

/-- Embedding of the part of `TokenData` the claims are about; the remaining
fields (`username`, `role`, `permissions`) are copied from the payload and play
no part in any claim. -/
structure TokenData where
  user_id : Option Int
deriving DecidableEq

/-- Python `a or b` on two optional strings: `a` unless it is `None` or `""`
(both falsy), in which case `b`. -/
def pyStrOr (a b : Option String) : Option String :=
  match a with
  | none => b
  | some s => if s = "" then b else some s

/-- Accumulate decimal digits; `none` at the first non-digit character. -/
def pyDigitsAux : List Char → Nat → Option Nat
  | [], acc => some acc
  | c :: cs, acc =>
    if c.isDigit then pyDigitsAux cs (acc * 10 + (c.toNat - '0'.toNat)) else none

/-- A non-empty all-digit character run, as a number. -/
def pyDigits : List Char → Option Nat
  | [] => none
  | c :: cs => pyDigitsAux (c :: cs) 0

/-- Embedding of Python `int(str)` on the strings at issue: an optional sign
followed by decimal digits; everything else raises `ValueError` (`none`).
(`int()` additionally strips surrounding whitespace and accepts `_`
separators, which no `sub` claim in this system contains.) -/
def pyInt (s : String) : Option Int :=
  match s.data with
  | '-' :: cs => (pyDigits cs).map (fun n => -(n : Int))
  | '+' :: cs => (pyDigits cs).map (fun n => (n : Int))
  | cs => (pyDigits cs).map (fun n => (n : Int))

/-- Embedding of `verify_token` (`app/core/security.py`): `jwt.decode` checks
signature/format and `exp` (python-jose raises once `exp < now`); then
`payload.get("type") or payload.get("typ")` is compared with `token_type`;
then the `sub` claim must exist and parse as an int. Every failure raises the
same 401 `credentials_exception`, embedded as `none`. -/
def verify_token (tok : Token) (now : Int) (token_type : String) : Option TokenData :=
  if !tok.sigValid then none
  else if tok.claims.exp < now then none
  else
    let token_type_claim := pyStrOr tok.claims.typeClaim tok.claims.typClaim
    if token_type_claim ≠ some token_type then none
    else
      match tok.claims.sub with
      | none => none
      | some s =>
        match pyInt s with
        | none => none
        | some uid => some ⟨some uid⟩

/-- Embedding of a `token_blacklist` row (`app/models/token_blacklist.py`):
`jti` is the primary key; `expires_at` mirrors the token's own expiry. The
`created_at` column is never read by any code path. -/
structure BlEntry where
  jti : String
  expires_at : Int
deriving DecidableEq

/-- Embedding of the `token_blacklist` table, rows in insertion order. -/
abbrev BlStore := List BlEntry

/-- Embedding of `TokenBlacklistService.is_token_blacklisted`. -/
def is_token_blacklisted (s : BlStore) (jti : String) : Bool :=
  s.any (fun e => e.jti == jti)

/-- Embedding of `TokenBlacklistService.blacklist_token`: insert and commit;
inserting a `jti` already present violates the primary key, the session rolls
back (table unchanged) and `False` is returned. -/
def blacklist_token (s : BlStore) (jti : String) (expires_at : Int) : Bool × BlStore :=
  if is_token_blacklisted s jti then (false, s)
  else (true, s ++ [⟨jti, expires_at⟩])

/-- Embedding of `TokenBlacklistService.cleanup_expired_tokens`: delete every
row with `expires_at < now`; returns the deleted rowcount and the table. -/
def cleanup_expired_tokens (s : BlStore) (now : Int) : Nat × BlStore :=
  let keep := s.filter (fun e => !decide (e.expires_at < now))
  (s.length - keep.length, keep)

/-- Modelled from the spec: `verify_token_with_blacklist` is imported from
`app.core.security` by `app/api/deps.py` and `app/services/auth_service.py`,
but no definition of it exists anywhere in the repository tree. Modelled on
§4.2 `TokenVerifier.verify`: (1) signature/format check fail-closed, (2)
expiry, (3) issuer check when configured, (5) revocation lookup by `jti`,
"revoked entries fail regardless of (1)–(4)". Its call sites pass no expected
type — both callers perform the exact-`typ` comparison (4) themselves — so the
raw claims are returned. `none` is the undifferentiated `Unauthenticated`. -/
def verify_token_with_blacklist (tok : Token) (now : Int) (cfgIssuer : Option String)
    (s : BlStore) : Option Claims :=
  if !tok.sigValid then none
  else if tok.claims.exp < now then none
  else if cfgIssuer.isSome ∧ tok.claims.iss ≠ cfgIssuer then none
  else if is_token_blacklisted s tok.claims.jti then none
  else some tok.claims

/-- Embedding of a `users` row, restricted to the fields `get_current_user`
and the permission gates read. `role_id` is kept optional to cover the
defensive `if not current_user.role` branches. -/
structure AppUser where
  id : Int
  status : String
  role_id : Option Nat
deriving DecidableEq

/-- Embedding of `db.query(User).filter(User.id == user_id).first()`. -/
def getUser (us : List AppUser) (i : Int) : Option AppUser :=
  us.find? (fun u => u.id == i)

/-- The two HTTP failure statuses the authentication/authorization paths
raise: 401 Unauthorized (`Unauthenticated`) and 403 Forbidden. -/
inductive HttpErr
  | unauthorized
  | forbidden
deriving DecidableEq

/-- Embedding of `get_current_user` (`app/api/deps.py`): blacklist-aware
verification, then the `sub` claim, the `typ == "access"` check, the int
conversion, the principal lookup — each failure a 401 — and finally the
`status != "active"` check, which raises 403 "User account is not active". -/
def get_current_user (tok : Token) (now : Int) (cfgIssuer : Option String)
    (s : BlStore) (us : List AppUser) : Except HttpErr AppUser :=
  match verify_token_with_blacklist tok now cfgIssuer s with
  | none => .error .unauthorized
  | some payload =>
    match payload.sub with
    | none => .error .unauthorized
    | some subClaim =>
      if payload.typClaim ≠ some "access" then .error .unauthorized
      else
        match pyInt subClaim with
        | none => .error .unauthorized
        | some uid =>
          match getUser us uid with
          | none => .error .unauthorized
          | some u =>
            if u.status ≠ "active" then .error .forbidden
            else .ok u

/-- Embedding of the gate built by `check_permissions` (`app/api/deps.py`):
403 without a role; otherwise the INHERITED permission names
(`Role.get_permission_names`, i.e. `get_all_permissions`) must contain every
required permission. -/
def check_permissions_gate (g : RoleGraph) (u : AppUser) (req : List String) :
    Except HttpErr AppUser :=
  match u.role_id.bind (getRole g) with
  | none => .error .forbidden
  | some role =>
    let userPerms := getAllPermissionsTop g role
    if req.all (fun p => decide (p ∈ userPerms)) then .ok u else .error .forbidden

/-- Embedding of the gate built by `require_permissions`
(`app/core/dependencies.py`): 403 without a role; otherwise only the DIRECT
permission names (`current_user.role.permissions`) are collected, and the set
difference `required - user_permissions` must be empty. -/
def require_permissions_gate (g : RoleGraph) (u : AppUser) (req : List String) :
    Except HttpErr AppUser :=
  match u.role_id.bind (getRole g) with
  | none => .error .forbidden
  | some role =>
    if req.all (fun p => decide (p ∈ role.perms)) then .ok u else .error .forbidden

/-! ## Blacklist lemmas -/

deriving instance DecidableEq for Except

/-- After `blacklist_token s jti e`, `jti` is blacklisted — whether the insert
succeeded or hit the primary key. -/
lemma is_blacklisted_after (s : BlStore) (jti : String) (e : Int) :
    is_token_blacklisted (blacklist_token s jti e).2 jti = true := by
  unfold blacklist_token
  by_cases h : is_token_blacklisted s jti = true
  · rw [if_pos h]
    exact h
  · rw [if_neg h]
    unfold is_token_blacklisted
    rw [List.any_append]
    simp

/-- A `jti` whose every row has expired is gone after `cleanup`. -/
lemma not_blacklisted_cleanup (s : BlStore) (now : Int) (jti : String)
    (h : ∀ x ∈ s, x.jti = jti → x.expires_at < now) :
    is_token_blacklisted (cleanup_expired_tokens s now).2 jti = false := by
  unfold cleanup_expired_tokens is_token_blacklisted
  rw [List.any_eq_false]
  intro x hx
  rw [List.mem_filter] at hx
  obtain ⟨hxs, hxk⟩ := hx
  intro hbeq
  have hj : x.jti = jti := by simpa using hbeq
  simp only [Bool.not_eq_true', decide_eq_false_iff_not, not_lt] at hxk
  exact absurd (h x hxs hj) (not_lt.mpr hxk)

/-- Rows surviving `cleanup` were in the table before. -/
lemma mem_cleanup_sub (s : BlStore) (now : Int) :
    ∀ x ∈ (cleanup_expired_tokens s now).2, x ∈ s := by
  intro x hx
  unfold cleanup_expired_tokens at hx
  rw [List.mem_filter] at hx
  exact hx.1

/-- A revoked `jti` makes `verify_token_with_blacklist` fail, whatever the
other checks would have said. -/
lemma verify_blacklist_none_of_revoked (tok : Token) (now : Int) (cfg : Option String)
    (s : BlStore) (h : is_token_blacklisted s tok.claims.jti = true) :
    verify_token_with_blacklist tok now cfg s = none := by
  unfold verify_token_with_blacklist
  by_cases h1 : (!tok.sigValid) = true
  · rw [if_pos h1]
  · rw [if_neg h1]
    by_cases h2 : tok.claims.exp < now
    · rw [if_pos h2]
    · rw [if_neg h2]
      by_cases h3 : cfg.isSome ∧ tok.claims.iss ≠ cfg
      · rw [if_pos h3]
      · rw [if_neg h3, if_pos h]

/-! ## C9 — revocation is idempotent, cleanup interplay -/

/-- C9: revoking a `jti` twice leaves the blacklist exactly as one revocation
does (the duplicate insert violates the `jti` primary key and rolls back), and
the `jti` is revoked afterwards; a `jti` whose rows have all expired is gone
after `cleanup`, a re-revoke then is a plain re-insert, and when its
`expires_at` is already past, the next `cleanup` removes it again. -/
theorem C9_revoke_idempotent :
    (∀ (s : BlStore) (jti : String) (e : Int),
      (blacklist_token (blacklist_token s jti e).2 jti e).2 = (blacklist_token s jti e).2
      ∧ is_token_blacklisted (blacklist_token s jti e).2 jti = true)
    ∧ (∀ (s : BlStore) (now : Int) (jti : String) (e : Int),
      (∀ x ∈ s, x.jti = jti → x.expires_at < now) →
      is_token_blacklisted (cleanup_expired_tokens s now).2 jti = false
      ∧ blacklist_token (cleanup_expired_tokens s now).2 jti e =
          (true, (cleanup_expired_tokens s now).2 ++ [⟨jti, e⟩])
      ∧ (e < now →
          is_token_blacklisted
            (cleanup_expired_tokens ((cleanup_expired_tokens s now).2 ++ [⟨jti, e⟩]) now).2 jti
            = false)) := by
  constructor
  · intro s jti e
    have h := is_blacklisted_after s jti e
    refine ⟨?_, h⟩
    generalize hgen : (blacklist_token s jti e).2 = t at h ⊢
    unfold blacklist_token
    rw [if_pos h]
  · intro s now jti e hall
    have hgone := not_blacklisted_cleanup s now jti hall
    refine ⟨hgone, ?_, ?_⟩
    · unfold blacklist_token
      rw [if_neg (by rw [hgone]; exact Bool.false_ne_true)]
    · intro he
      apply not_blacklisted_cleanup
      intro x hx hj
      rcases List.mem_append.mp hx with hx1 | hx2
      · exact hall x (mem_cleanup_sub s now x hx1) hj
      · rw [List.mem_singleton] at hx2
        subst hx2
        exact he

/-- Witness for C9: a concrete store with one expired row for `"a"`. -/
theorem C9_revoke_idempotent_witness :
    (∀ x ∈ ([⟨"a", 5⟩] : BlStore), x.jti = "a" → x.expires_at < (10 : Int))
    ∧ is_token_blacklisted (cleanup_expired_tokens [⟨"a", 5⟩] 10).2 "a" = false
    ∧ blacklist_token (cleanup_expired_tokens [⟨"a", 5⟩] 10).2 "a" 7 =
        (true, (cleanup_expired_tokens [⟨"a", 5⟩] 10).2 ++ [⟨"a", 7⟩])
    ∧ is_token_blacklisted
        (cleanup_expired_tokens ((cleanup_expired_tokens [⟨"a", 5⟩] 10).2 ++ [⟨"a", 7⟩]) 10).2 "a"
        = false := by
  have h := C9_revoke_idempotent.2 [⟨"a", 5⟩] 10 "a" 7 (by decide)
  exact ⟨by decide, h.1, h.2.1, h.2.2 (by decide)⟩

/-! ## C1 — revocation by `jti` overrides every other passing check -/

/-- C1: once a token's `jti` has been revoked (`blacklist_token`), every
subsequent verification fails with `Unauthenticated` — both the modelled
`verify_token_with_blacklist` and the full `get_current_user` path — even
though the signature is valid, the expiry has not passed and the `typ` claim
is `"access"`. -/
theorem C1_revocation_overrides (tok : Token) (now : Int) (cfg : Option String)
    (s : BlStore) (us : List AppUser) (e : Int)
    (hsig : tok.sigValid = true) (hexp : ¬ tok.claims.exp < now)
    (htyp : tok.claims.typClaim = some "access") :
    verify_token_with_blacklist tok now cfg (blacklist_token s tok.claims.jti e).2 = none
    ∧ get_current_user tok now cfg (blacklist_token s tok.claims.jti e).2 us
        = .error .unauthorized := by
  have hrev := is_blacklisted_after s tok.claims.jti e
  have hv := verify_blacklist_none_of_revoked tok now cfg _ hrev
  refine ⟨hv, ?_⟩
  unfold get_current_user
  rw [hv]

/-- Witness for C1: a concrete valid, unexpired access token whose `jti` has
just been revoked. -/
theorem C1_revocation_overrides_witness :
    (⟨⟨some "1", some "access", none, 100, "j", none⟩, true⟩ : Token).sigValid = true
    ∧ ¬ (⟨⟨some "1", some "access", none, 100, "j", none⟩, true⟩ : Token).claims.exp < (0 : Int)
    ∧ verify_token_with_blacklist ⟨⟨some "1", some "access", none, 100, "j", none⟩, true⟩ 0 none
        (blacklist_token [] "j" 100).2 = none
    ∧ get_current_user ⟨⟨some "1", some "access", none, 100, "j", none⟩, true⟩ 0 none
        (blacklist_token [] "j" 100).2 [⟨1, "active", none⟩] = .error .unauthorized := by
  have h := C1_revocation_overrides ⟨⟨some "1", some "access", none, 100, "j", none⟩, true⟩ 0 none
    [] [⟨1, "active", none⟩] 100 (by decide) (by decide) (by decide)
  exact ⟨by decide, by decide, h.1, h.2⟩

/-! ## C5 — missing principal vs. inactive principal -/

/-- C5 counterexample: a token that verifies, names the existing principal `1`,
whose `status` is `"suspended"`: `get_current_user` raises 403 Forbidden
("User account is not active"), not 401 `Unauthenticated` as the claim
states. -/
theorem C5_counterexample :
    get_current_user ⟨⟨some "1", some "access", none, 100, "j", none⟩, true⟩ 0 none []
        [⟨1, "suspended", none⟩] = .error .forbidden
    ∧ get_current_user ⟨⟨some "1", some "access", none, 100, "j", none⟩, true⟩ 0 none []
        [⟨1, "suspended", none⟩] ≠ .error .unauthorized := by
  decide

/-- C5 as amended: after a successful token verification, a principal missing
from the store yields 401 `Unauthenticated`, but a present principal with
`status != "active"` yields 403 Forbidden. -/
theorem C5_amended (tok : Token) (now : Int) (cfg : Option String) (s : BlStore)
    (us : List AppUser) (str : String) (uid : Int)
    (hver : verify_token_with_blacklist tok now cfg s = some tok.claims)
    (hsub : tok.claims.sub = some str)
    (htyp : tok.claims.typClaim = some "access")
    (hint : pyInt str = some uid) :
    (getUser us uid = none → get_current_user tok now cfg s us = .error .unauthorized)
    ∧ (∀ u, getUser us uid = some u → u.status ≠ "active" →
        get_current_user tok now cfg s us = .error .forbidden) := by
  constructor
  · intro hu
    simp [get_current_user, hver, hsub, htyp, hint, hu]
  · intro u hu hst
    simp [get_current_user, hver, hsub, htyp, hint, hu, hst]

/-- Witness for C5: principal `1` is absent from an empty user table, and the
suspended principal `2` is rejected with 403. -/
theorem C5_amended_witness :
    verify_token_with_blacklist ⟨⟨some "1", some "access", none, 100, "j", none⟩, true⟩ 0 none []
      = some ⟨some "1", some "access", none, 100, "j", none⟩
    ∧ get_current_user ⟨⟨some "1", some "access", none, 100, "j", none⟩, true⟩ 0 none []
        ([] : List AppUser) = .error .unauthorized
    ∧ get_current_user ⟨⟨some "2", some "access", none, 100, "j", none⟩, true⟩ 0 none []
        [⟨2, "inactive", none⟩] = .error .forbidden := by
  refine ⟨by decide, ?_, ?_⟩
  · exact (C5_amended ⟨⟨some "1", some "access", none, 100, "j", none⟩, true⟩ 0 none [] []
      "1" 1 (by decide) (by decide) (by decide) (by decide)).1 (by decide)
  · exact (C5_amended ⟨⟨some "2", some "access", none, 100, "j", none⟩, true⟩ 0 none []
      [⟨2, "inactive", none⟩] "2" 2 (by decide) (by decide) (by decide) (by decide)).2
      ⟨2, "inactive", none⟩ (by decide) (by decide)

/-! ## C6 — token-type mismatch -/

/-- C6 counterexample: `verify_token` compares
`payload.get("type") or payload.get("typ")`, so a validly signed, unexpired
token carrying `type = "access"` next to `typ = "refresh"` — producible via
`create_access_token`'s caller-supplied `extra` claims — passes
`verify_token(..., "access")` even though its `typ` claim is `"refresh"`,
contradicting the claim as stated. -/
theorem C6_counterexample :
    verify_token ⟨⟨some "1", some "refresh", some "access", 100, "j", none⟩, true⟩ 0 "access"
      = some ⟨some 1⟩
    ∧ (⟨⟨some "1", some "refresh", some "access", 100, "j", none⟩, true⟩ : Token).claims.typClaim
      = some "refresh" := by
  decide

/-- C6 as amended: for tokens without a separate `"type"` claim — which is
every token this codebase issues, `_build_claims` only sets `typ` — a
`typ = "refresh"` token fails `verify_token(..., "access")` and a
`typ = "access"` token fails `verify_token(..., "refresh")`; a token carrying
both claims is judged by `"type"` instead. -/
theorem C6_amended (tok : Token) (now : Int) (hnotype : tok.claims.typeClaim = none) :
    (tok.claims.typClaim = some "refresh" → verify_token tok now "access" = none)
    ∧ (tok.claims.typClaim = some "access" → verify_token tok now "refresh" = none) := by
  constructor
  · intro htyp
    unfold verify_token
    by_cases h1 : (!tok.sigValid) = true
    · simp [h1]
    · by_cases h2 : tok.claims.exp < now
      · simp [h1, h2]
      · simp [h1, h2, pyStrOr, hnotype, htyp]
  · intro htyp
    unfold verify_token
    by_cases h1 : (!tok.sigValid) = true
    · simp [h1]
    · by_cases h2 : tok.claims.exp < now
      · simp [h1, h2]
      · simp [h1, h2, pyStrOr, hnotype, htyp]

/-- Witness for C6: a concrete refresh token rejected as access and a concrete
access token rejected as refresh. -/
theorem C6_amended_witness :
    (⟨⟨some "1", some "refresh", none, 100, "j", none⟩, true⟩ : Token).claims.typeClaim = none
    ∧ verify_token ⟨⟨some "1", some "refresh", none, 100, "j", none⟩, true⟩ 0 "access" = none
    ∧ verify_token ⟨⟨some "1", some "access", none, 100, "k", none⟩, true⟩ 0 "refresh" = none := by
  refine ⟨by decide, ?_, ?_⟩
  · exact (C6_amended ⟨⟨some "1", some "refresh", none, 100, "j", none⟩, true⟩ 0 (by decide)).1
      (by decide)
  · exact (C6_amended ⟨⟨some "1", some "access", none, 100, "k", none⟩, true⟩ 0 (by decide)).2
      (by decide)

/-! ## C10 — the two permission gates are not equivalent -/

/-- Direct permissions are always contained in the inherited effective set. -/
lemma perms_subset_getAllPermissionsTop (g : RoleGraph) (r : Role) :
    r.perms ⊆ getAllPermissionsTop g r := by
  unfold getAllPermissionsTop getAllPermissions
  simp only [Finset.not_mem_empty, if_false]
  match h : roleParent g r with
  | none => simp
  | some p => simp

/-- C10 counterexample: role `1` holds `x:read` directly, role `2` is its child
with no direct permissions; for a user with role `2` and requirement
`["x:read"]` the inherited gate (`check_permissions`) authorizes while the
direct-only gate (`require_permissions`) rejects with 403 — the two gates are
not equivalent. -/
theorem C10_counterexample :
    check_permissions_gate
        [⟨1, "A", none, 0, {"x:read"}⟩, ⟨2, "B", some 1, 1, ∅⟩]
        ⟨7, "active", some 2⟩ ["x:read"] = .ok ⟨7, "active", some 2⟩
    ∧ require_permissions_gate
        [⟨1, "A", none, 0, {"x:read"}⟩, ⟨2, "B", some 1, 1, ∅⟩]
        ⟨7, "active", some 2⟩ ["x:read"] = .error .forbidden := by
  decide

/-- C10 as amended: the gates are not equivalent; `require_permissions` is
strictly stronger — whenever it authorizes a `(user, required)` pair,
`check_permissions` authorizes it too (direct permissions are a subset of the
effective set), while the converse fails exactly when a required permission is
held only by an ancestor role. -/
theorem C10_amended (g : RoleGraph) (u : AppUser) (req : List String)
    (h : require_permissions_gate g u req = .ok u) :
    check_permissions_gate g u req = .ok u := by
  unfold require_permissions_gate at h
  unfold check_permissions_gate
  match hrole : u.role_id.bind (getRole g) with
  | none => rw [hrole] at h; exact absurd h (by simp)
  | some role =>
    rw [hrole] at h
    by_cases hall : req.all (fun p => decide (p ∈ role.perms)) = true
    · have hall' : req.all (fun p => decide (p ∈ getAllPermissionsTop g role)) = true := by
        simp only [List.all_eq_true, decide_eq_true_eq] at hall ⊢
        intro p hp
        exact perms_subset_getAllPermissionsTop g role (hall p hp)
      simp [hall']
    · have h' : (if (req.all fun p => decide (p ∈ role.perms)) = true
          then (Except.ok u : Except HttpErr AppUser)
          else Except.error HttpErr.forbidden) = Except.ok u := h
      rw [if_neg hall] at h'
      exact absurd h' (by simp)

/-- Witness for C10: a user whose role holds `y:write` directly passes both
gates. -/
theorem C10_amended_witness :
    require_permissions_gate [⟨1, "A", none, 0, {"y:write"}⟩] ⟨7, "active", some 1⟩ ["y:write"]
      = .ok ⟨7, "active", some 1⟩
    ∧ check_permissions_gate [⟨1, "A", none, 0, {"y:write"}⟩] ⟨7, "active", some 1⟩ ["y:write"]
      = .ok ⟨7, "active", some 1⟩ := by
  refine ⟨by decide, ?_⟩
  exact C10_amended [⟨1, "A", none, 0, {"y:write"}⟩] ⟨7, "active", some 1⟩ ["y:write"] (by decide)

/-! ## Parent-walk machinery -/

lemma getRole_mem {g : RoleGraph} {i : Nat} {r : Role} (h : getRole g i = some r) :
    r ∈ g ∧ r.id = i := by
  refine ⟨List.mem_of_find?_eq_some h, ?_⟩
  have := List.find?_some h
  simpa using this

lemma id_inj {g : RoleGraph} (hn : NodupIds g) {x y : Role}
    (hx : x ∈ g) (hy : y ∈ g) (h : x.id = y.id) : x = y :=
  List.inj_on_of_nodup_map hn hx hy h

lemma getRole_self {g : RoleGraph} (hn : NodupIds g) {r : Role} (hr : r ∈ g) :
    getRole g r.id = some r := by
  match h : getRole g r.id with
  | none =>
    exfalso
    have := List.find?_eq_none.mp h r hr
    simp at this
  | some x =>
    obtain ⟨hxg, hxi⟩ := getRole_mem h
    rw [id_inj hn hxg hr hxi]

lemma mem_ids {g : RoleGraph} {i : Nat} : i ∈ ids g ↔ ∃ r ∈ g, r.id = i := by
  simp [ids]

lemma getRole_isSome {g : RoleGraph} {i : Nat} :
    (getRole g i).isSome = true ↔ i ∈ ids g := by
  constructor
  · intro h
    match hx : getRole g i with
    | none => rw [hx] at h; simp at h
    | some r =>
      obtain ⟨hg, hi⟩ := getRole_mem hx
      exact mem_ids.mpr ⟨r, hg, hi⟩
  · intro h
    obtain ⟨r, hg, hi⟩ := mem_ids.mp h
    match hx : getRole g i with
    | some _ => simp
    | none =>
      exfalso
      have := List.find?_eq_none.mp hx r hg
      simp [hi] at this

lemma roleParent_mem {g : RoleGraph} {r q : Role} (h : roleParent g r = some q) : q ∈ g := by
  unfold roleParent at h
  cases hpid : r.parent_id with
  | none => rw [hpid] at h; cases h
  | some p => rw [hpid] at h; exact (getRole_mem h).1

lemma rooted_none {g : RoleGraph} {m : Nat} : rooted g m none = true := by
  cases m <;> rfl

lemma rooted_zero {g : RoleGraph} {r : Role} : rooted g 0 (some r) = false := rfl

lemma rooted_succ {g : RoleGraph} {m : Nat} {r : Role} :
    rooted g (m + 1) (some r) = rooted g m (roleParent g r) := rfl

lemma chainRoles_none {g : RoleGraph} {m : Nat} : chainRoles g m none = [] := by
  cases m <;> rfl

lemma chainRoles_zero {g : RoleGraph} {c : Option Role} : chainRoles g 0 c = [] := by
  cases c <;> rfl

lemma chainRoles_succ {g : RoleGraph} {m : Nat} {r : Role} :
    chainRoles g (m + 1) (some r) = r :: chainRoles g m (roleParent g r) := rfl

lemma walkN_zero {g : RoleGraph} {c : Option Role} : walkN g 0 c = c := rfl

lemma walkN_none {g : RoleGraph} {k : Nat} : walkN g k none = none := by
  cases k <;> rfl

lemma walkN_succ {g : RoleGraph} {k : Nat} {r : Role} :
    walkN g (k + 1) (some r) = walkN g k (roleParent g r) := rfl

lemma rooted_mono {g : RoleGraph} : ∀ {m m' : Nat} {c : Option Role}, m ≤ m' →
    rooted g m c = true → rooted g m' c = true := by
  intro m
  induction m with
  | zero =>
    intro m' c _ hc
    cases c with
    | none => exact rooted_none
    | some r => rw [rooted_zero] at hc; cases hc
  | succ m ih =>
    intro m' c h hc
    cases c with
    | none => exact rooted_none
    | some r =>
      obtain ⟨m'', rfl⟩ : ∃ k, m' = k + 1 := ⟨m' - 1, by omega⟩
      rw [rooted_succ] at hc ⊢
      exact ih (by omega) hc

lemma walkN_add {g : RoleGraph} : ∀ (a b : Nat) (c : Option Role),
    walkN g (a + b) c = walkN g b (walkN g a c) := by
  intro a
  induction a with
  | zero =>
    intro b c
    rw [Nat.zero_add, walkN_zero]
  | succ a ih =>
    intro b c
    cases c with
    | none => simp [walkN_none]
    | some r =>
      have h : a + 1 + b = (a + b) + 1 := by omega
      rw [h, walkN_succ, walkN_succ, ih]

lemma rooted_walkN {g : RoleGraph} : ∀ {j m : Nat} {c : Option Role} {x : Role},
    rooted g m c = true → walkN g j c = some x →
    j < m ∧ rooted g (m - j) (some x) = true := by
  intro j
  induction j with
  | zero =>
    intro m c x hm hw
    rw [walkN_zero] at hw
    rw [hw] at hm
    cases m with
    | zero => rw [rooted_zero] at hm; cases hm
    | succ m => exact ⟨by omega, hm⟩
  | succ j ih =>
    intro m c x hm hw
    cases c with
    | none => rw [walkN_none] at hw; cases hw
    | some r =>
      cases m with
      | zero => rw [rooted_zero] at hm; cases hm
      | succ m =>
        rw [rooted_succ] at hm
        rw [walkN_succ] at hw
        obtain ⟨h1, h2⟩ := ih hm hw
        refine ⟨by omega, ?_⟩
        have h3 : m + 1 - (j + 1) = m - j := by omega
        rw [h3]
        exact h2

lemma mem_chain_walk {g : RoleGraph} : ∀ {m : Nat} {c : Option Role} {x : Role},
    x ∈ chainRoles g m c → ∃ j, j < m ∧ walkN g j c = some x := by
  intro m
  induction m with
  | zero =>
    intro c x hx
    rw [chainRoles_zero] at hx
    cases hx
  | succ m ih =>
    intro c x hx
    cases c with
    | none => rw [chainRoles_none] at hx; cases hx
    | some r =>
      rw [chainRoles_succ] at hx
      rcases List.mem_cons.mp hx with h | h
      · exact ⟨0, by omega, by rw [walkN_zero, h]⟩
      · obtain ⟨j, hj, hw⟩ := ih h
        exact ⟨j + 1, by omega, by rw [walkN_succ]; exact hw⟩

lemma walk_mem_chain {g : RoleGraph} : ∀ {j m : Nat} {c : Option Role} {x : Role},
    walkN g j c = some x → j < m → x ∈ chainRoles g m c := by
  intro j
  induction j with
  | zero =>
    intro m c x hw hlt
    rw [walkN_zero] at hw
    obtain ⟨m', rfl⟩ : ∃ k, m = k + 1 := ⟨m - 1, by omega⟩
    rw [hw, chainRoles_succ]
    exact List.mem_cons_self _ _
  | succ j ih =>
    intro m c x hw hlt
    cases c with
    | none => rw [walkN_none] at hw; cases hw
    | some r =>
      rw [walkN_succ] at hw
      obtain ⟨m', rfl⟩ : ∃ k, m = k + 1 := ⟨m - 1, by omega⟩
      rw [chainRoles_succ]
      exact List.mem_cons.mpr (Or.inr (ih hw (by omega)))

lemma no_return {g : RoleGraph} {m j : Nat} {r : Role}
    (hm : rooted g m (some r) = true) (hw : walkN g j (some r) = some r) : j = 0 := by
  by_contra hj
  have hex : ∃ k, rooted g k (some r) = true := ⟨m, hm⟩
  have h0 := Nat.find_spec hex
  obtain ⟨h1, h2⟩ := rooted_walkN h0 hw
  have hlt : Nat.find hex - j < Nat.find hex := by omega
  exact absurd h2 (Nat.find_min hex hlt)

lemma chain_subset {g : RoleGraph} : ∀ {m : Nat} {c : Option Role},
    (∀ r₀, c = some r₀ → r₀ ∈ g) → ∀ x ∈ chainRoles g m c, x ∈ g := by
  intro m
  induction m with
  | zero =>
    intro c hc x hx
    rw [chainRoles_zero] at hx
    cases hx
  | succ m ih =>
    intro c hc x hx
    cases c with
    | none => rw [chainRoles_none] at hx; cases hx
    | some r =>
      rw [chainRoles_succ] at hx
      rcases List.mem_cons.mp hx with h | h
      · rw [h]; exact hc r rfl
      · refine ih ?_ x h
        intro q hq
        exact roleParent_mem hq

lemma chain_nodup {g : RoleGraph} (hn : NodupIds g) :
    ∀ {m : Nat} {r : Role}, r ∈ g → rooted g m (some r) = true →
    (chainIds g m (some r)).Nodup := by
  intro m
  induction m with
  | zero =>
    intro r _ hm
    rw [rooted_zero] at hm
    cases hm
  | succ m ih =>
    intro r hr hm
    have hm' : rooted g m (roleParent g r) = true := by rw [← rooted_succ]; exact hm
    unfold chainIds
    rw [chainRoles_succ, List.map_cons, List.nodup_cons]
    constructor
    · intro hmem
      simp only [List.mem_map] at hmem
      obtain ⟨x, hx, hxid⟩ := hmem
      obtain ⟨j, _, hw⟩ := mem_chain_walk hx
      have hxg : x ∈ g := chain_subset (fun q hq => roleParent_mem hq) x hx
      have hxr : x = r := id_inj hn hxg hr hxid
      rw [hxr] at hw
      have hw' : walkN g (j + 1) (some r) = some r := by rw [walkN_succ]; exact hw
      have := no_return hm hw'
      omega
    · cases hp : roleParent g r with
      | none => simp [chainRoles_none]
      | some p =>
        rw [hp] at hm'
        have hpg : p ∈ g := roleParent_mem hp
        exact ih hpg hm'

lemma chain_length_le {g : RoleGraph} (hn : NodupIds g) {m : Nat} {r : Role}
    (hr : r ∈ g) (hm : rooted g m (some r) = true) :
    (chainRoles g m (some r)).length ≤ g.length := by
  have hnd := chain_nodup hn hr hm
  have hsub : chainIds g m (some r) ⊆ ids g := by
    intro i hi
    unfold chainIds at hi
    simp only [List.mem_map] at hi
    obtain ⟨x, hx, rfl⟩ := hi
    have hxg : x ∈ g := by
      refine chain_subset ?_ x hx
      intro r₀ h₀
      injection h₀ with h₀
      rw [← h₀]
      exact hr
    exact List.mem_map_of_mem _ hxg
  have hlen : (chainIds g m (some r)).length ≤ (ids g).length :=
    (hnd.subperm hsub).length_le
  have h1 : (chainIds g m (some r)).length = (chainRoles g m (some r)).length := by
    simp [chainIds]
  have h2 : (ids g).length = g.length := by simp [ids]
  omega

lemma rooted_of_length {g : RoleGraph} : ∀ {m k : Nat} {c : Option Role},
    rooted g m c = true → (chainRoles g m c).length ≤ k → rooted g k c = true := by
  intro m
  induction m with
  | zero =>
    intro k c hm _
    cases c with
    | none => exact rooted_none
    | some r => rw [rooted_zero] at hm; cases hm
  | succ m ih =>
    intro k c hm hk
    cases c with
    | none => exact rooted_none
    | some r =>
      rw [rooted_succ] at hm
      rw [chainRoles_succ, List.length_cons] at hk
      obtain ⟨k', rfl⟩ : ∃ k'', k = k'' + 1 := ⟨k - 1, by omega⟩
      rw [rooted_succ]
      exact ih hm (by omega)

lemma rooted_canonical {g : RoleGraph} (hn : NodupIds g) {m : Nat} {r : Role}
    (hr : r ∈ g) (hm : rooted g m (some r) = true) :
    rooted g g.length (some r) = true :=
  rooted_of_length hm (chain_length_le hn hr hm)

lemma chain_stable {g : RoleGraph} : ∀ {m m' : Nat} {c : Option Role},
    rooted g m c = true → m ≤ m' → chainRoles g m' c = chainRoles g m c := by
  intro m
  induction m with
  | zero =>
    intro m' c hm _
    cases c with
    | none => rw [chainRoles_none, chainRoles_none]
    | some r => rw [rooted_zero] at hm; cases hm
  | succ m ih =>
    intro m' c hm hle
    cases c with
    | none => rw [chainRoles_none, chainRoles_none]
    | some r =>
      obtain ⟨m'', rfl⟩ : ∃ k, m' = k + 1 := ⟨m' - 1, by omega⟩
      rw [rooted_succ] at hm
      rw [chainRoles_succ, chainRoles_succ, ih hm (by omega)]

/-! ## Structural equality: level writes never change the walk structure -/

lemma strip_lvlAdj (i lvl : Nat) (r : Role) : strip (lvlAdj i lvl r) = strip r := by
  unfold lvlAdj strip
  by_cases h : r.id = i <;> simp [h]

lemma structEq_symm {g g' : RoleGraph} (h : StructEq g g') : StructEq g' g := h.symm

lemma structEq_trans {g g' g'' : RoleGraph} (h : StructEq g g') (h' : StructEq g' g'') :
    StructEq g g'' := h.trans h'

lemma setLevel_structEq (g : RoleGraph) (i lvl : Nat) : StructEq g (setLevel g i lvl) := by
  unfold StructEq setLevel
  induction g with
  | nil => rfl
  | cons a l ih =>
    simp only [List.map_cons, List.cons.injEq]
    exact ⟨(strip_lvlAdj i lvl a).symm, ih⟩

lemma structEq_length {g g' : RoleGraph} (h : StructEq g g') : g.length = g'.length := by
  have := congrArg List.length h
  simpa using this

lemma structEq_ids {g g' : RoleGraph} (h : StructEq g g') : ids g = ids g' := by
  have h2 : (g.map strip).map Prod.fst = (g'.map strip).map Prod.fst := by rw [h]
  simpa [ids, List.map_map, Function.comp, strip] using h2

lemma structEq_mem {g g' : RoleGraph} (h : StructEq g g') {r' : Role} (hr' : r' ∈ g') :
    ∃ r ∈ g, strip r = strip r' := by
  have hm : strip r' ∈ g'.map strip := List.mem_map_of_mem _ hr'
  rw [← h] at hm
  simp only [List.mem_map] at hm
  obtain ⟨r, hrg, hs⟩ := hm
  exact ⟨r, hrg, hs⟩

lemma strip_id {r r' : Role} (h : strip r = strip r') : r.id = r'.id := by
  unfold strip at h
  exact congrArg Prod.fst h

lemma strip_parent {r r' : Role} (h : strip r = strip r') : r.parent_id = r'.parent_id := by
  unfold strip at h
  exact congrArg Prod.snd h

lemma structEq_getRole {g g' : RoleGraph} (h : StructEq g g') (j : Nat) :
    (getRole g j).map strip = (getRole g' j).map strip := by
  unfold StructEq at h
  unfold getRole
  induction g generalizing g' with
  | nil =>
    cases g' with
    | nil => rfl
    | cons b l' => simp at h
  | cons a l ih =>
    cases g' with
    | nil => simp at h
    | cons b l' =>
      rw [List.map_cons, List.map_cons] at h
      injection h with hab htail
      have hid : a.id = b.id := strip_id hab
      rw [List.find?_cons, List.find?_cons]
      by_cases hj : (a.id == j) = true
      · have hj' : (b.id == j) = true := by rw [← hid]; exact hj
        rw [hj, hj']
        simp [hab]
      · have hja : (a.id == j) = false := by simpa using hj
        have hjb : (b.id == j) = false := by rw [← hid]; exact hja
        rw [hja, hjb]
        exact ih htail

lemma structEq_rooted {g g' : RoleGraph} (h : StructEq g g') :
    ∀ {m : Nat} {c c' : Option Role}, c.map strip = c'.map strip →
    rooted g m c = rooted g' m c' := by
  intro m
  induction m with
  | zero =>
    intro c c' hcc
    cases c with
    | none =>
      cases c' with
      | none => rfl
      | some r' => simp at hcc
    | some r =>
      cases c' with
      | none => simp at hcc
      | some r' => rfl
  | succ m ih =>
    intro c c' hcc
    cases c with
    | none =>
      cases c' with
      | none => rfl
      | some r' => simp at hcc
    | some r =>
      cases c' with
      | none => simp at hcc
      | some r' =>
        simp only [Option.map_some'] at hcc
        injection hcc with hcc
        rw [rooted_succ, rooted_succ]
        apply ih
        unfold roleParent
        rw [strip_parent hcc]
        cases hp : r'.parent_id with
        | none => rfl
        | some p => exact structEq_getRole h p

lemma structEq_chainIds {g g' : RoleGraph} (h : StructEq g g') :
    ∀ {m : Nat} {c c' : Option Role}, c.map strip = c'.map strip →
    chainIds g m c = chainIds g' m c' := by
  intro m
  induction m with
  | zero =>
    intro c c' _
    unfold chainIds
    rw [chainRoles_zero, chainRoles_zero]
  | succ m ih =>
    intro c c' hcc
    cases c with
    | none =>
      cases c' with
      | none => unfold chainIds; rw [chainRoles_none, chainRoles_none]
      | some r' => simp at hcc
    | some r =>
      cases c' with
      | none => simp at hcc
      | some r' =>
        simp only [Option.map_some'] at hcc
        injection hcc with hcc
        unfold chainIds
        rw [chainRoles_succ, chainRoles_succ, List.map_cons, List.map_cons]
        have htail : chainIds g m (roleParent g r) = chainIds g' m (roleParent g' r') := by
          apply ih
          unfold roleParent
          rw [strip_parent hcc]
          cases hp : r'.parent_id with
          | none => rfl
          | some p => exact structEq_getRole h p
        unfold chainIds at htail
        rw [strip_id hcc, htail]

lemma structEq_nodupIds {g g' : RoleGraph} (h : StructEq g g') (hn : NodupIds g) :
    NodupIds g' := by
  unfold NodupIds at *
  rw [← structEq_ids h]
  exact hn

lemma structEq_zeroFree {g g' : RoleGraph} (h : StructEq g g') (hz : ZeroFree g) :
    ZeroFree g' := by
  unfold ZeroFree at *
  rw [← structEq_ids h]
  exact hz

lemma structEq_acyclic {g g' : RoleGraph} (h : StructEq g g') (ha : Acyclic g) :
    Acyclic g' := by
  intro r' hr'
  obtain ⟨r, hrg, hs⟩ := structEq_mem h hr'
  have h1 := ha r hrg
  have h2 : rooted g g'.length (some r) = rooted g' g'.length (some r') := by
    apply structEq_rooted h
    simp [hs]
  rw [← h2, ← structEq_length h]
  exact h1

lemma structEq_parentsOk {g g' : RoleGraph} (h : StructEq g g') (hp : ParentsOk g) :
    ParentsOk g' := by
  intro r' hr' p hpid
  obtain ⟨r, hrg, hs⟩ := structEq_mem h hr'
  rw [← structEq_ids h]
  exact hp r hrg p (by rw [strip_parent hs]; exact hpid)

lemma structEq_inSubtree {g g' : RoleGraph} (h : StructEq g g') (a j : Nat) :
    InSubtree g a j ↔ InSubtree g' a j := by
  unfold InSubtree
  have h1 : chainIds g g'.length (getRole g j) = chainIds g' g'.length (getRole g' j) :=
    structEq_chainIds h (structEq_getRole h j)
  rw [structEq_length h, h1]

lemma structEq_depth {g g' : RoleGraph} (h : StructEq g g') (j : Nat) :
    depth g j = depth g' j := by
  unfold depth
  have h1 : chainIds g g'.length (getRole g j) = chainIds g' g'.length (getRole g' j) :=
    structEq_chainIds h (structEq_getRole h j)
  have h2 : (chainIds g g'.length (getRole g j)).length
      = (chainIds g' g'.length (getRole g' j)).length := by rw [h1]
  unfold chainIds at h2
  rw [structEq_length h]
  simpa using h2

lemma structEq_childIds {g g' : RoleGraph} (h : StructEq g g') (i : Nat) :
    (childrenOf g i).map (·.id) = (childrenOf g' i).map (·.id) := by
  unfold StructEq at h
  unfold childrenOf
  induction g generalizing g' with
  | nil =>
    cases g' with
    | nil => rfl
    | cons b l' => simp at h
  | cons a l ih =>
    cases g' with
    | nil => simp at h
    | cons b l' =>
      rw [List.map_cons, List.map_cons] at h
      injection h with hab htail
      rw [List.filter_cons, List.filter_cons]
      have hpid : (a.parent_id == some i) = (b.parent_id == some i) := by
        rw [strip_parent hab]
      by_cases hc : (a.parent_id == some i) = true
      · rw [if_pos hc, if_pos (by rw [← hpid]; exact hc)]
        rw [List.map_cons, List.map_cons, strip_id hab, ih htail]
      · rw [if_neg hc, if_neg (by rw [← hpid]; exact hc)]
        exact ih htail

/-! ## Subtree lemmas -/

lemma mem_childrenOf {g : RoleGraph} {i : Nat} {c : Role} :
    c ∈ childrenOf g i ↔ c ∈ g ∧ c.parent_id = some i := by
  unfold childrenOf
  rw [List.mem_filter]
  constructor
  · rintro ⟨h1, h2⟩
    exact ⟨h1, by simpa using h2⟩
  · rintro ⟨h1, h2⟩
    exact ⟨h1, by simp [h2]⟩

lemma childIds_nodup {g : RoleGraph} (hn : NodupIds g) (i : Nat) :
    ((childrenOf g i).map (·.id)).Nodup := by
  have hsub : (childrenOf g i).Sublist g := List.filter_sublist g
  have hn' : (g.map (·.id)).Nodup := hn
  exact (hsub.map (·.id)).nodup hn'

lemma inSubtree_self {g : RoleGraph} {j : Nat} (hj : j ∈ ids g) : InSubtree g j j := by
  have hs : (getRole g j).isSome = true := getRole_isSome.mpr hj
  match hx : getRole g j with
  | none => rw [hx] at hs; simp at hs
  | some r =>
    obtain ⟨hrg, hrid⟩ := getRole_mem hx
    unfold InSubtree
    rw [hx]
    obtain ⟨n', hn'⟩ : ∃ k, g.length = k + 1 := by
      cases hg : g with
      | nil => rw [hg] at hrg; cases hrg
      | cons a l => exact ⟨l.length, by simp⟩
    rw [hn']
    unfold chainIds
    rw [chainRoles_succ, List.map_cons]
    exact List.mem_cons.mpr (Or.inl hrid.symm)

lemma inSubtree_mem {g : RoleGraph} {a j : Nat} (h : InSubtree g a j) :
    a ∈ ids g ∧ j ∈ ids g := by
  unfold InSubtree at h
  match hx : getRole g j with
  | none =>
    rw [hx] at h
    unfold chainIds at h
    rw [chainRoles_none] at h
    cases h
  | some r =>
    obtain ⟨hrg, hrid⟩ := getRole_mem hx
    rw [hx] at h
    unfold chainIds at h
    simp only [List.mem_map] at h
    obtain ⟨x, hxchain, hxa⟩ := h
    have hxg : x ∈ g := by
      refine chain_subset ?_ x hxchain
      intro r₀ h₀
      injection h₀ with h₀
      rw [← h₀]
      exact hrg
    exact ⟨mem_ids.mpr ⟨x, hxg, hxa⟩, mem_ids.mpr ⟨r, hrg, hrid⟩⟩

lemma inSubtree_walk {g : RoleGraph} (hn : NodupIds g) {a j : Nat} (h : InSubtree g a j) :
    ∃ k ra, getRole g a = some ra ∧ walkN g k (getRole g j) = some ra := by
  unfold InSubtree chainIds at h
  simp only [List.mem_map] at h
  obtain ⟨x, hxchain, hxa⟩ := h
  obtain ⟨k, _, hw⟩ := mem_chain_walk hxchain
  have hxg : x ∈ g := by
    refine chain_subset ?_ x hxchain
    intro r₀ h₀
    exact (getRole_mem h₀).1
  have hga : getRole g a = some x := by rw [← hxa]; exact getRole_self hn hxg
  exact ⟨k, x, hga, hw⟩

lemma walk_inSubtree {g : RoleGraph} (ha : Acyclic g) {j k : Nat} {x : Role}
    (hw : walkN g k (getRole g j) = some x) : InSubtree g x.id j := by
  match hx : getRole g j with
  | none => rw [hx, walkN_none] at hw; cases hw
  | some rj =>
    obtain ⟨hrg, _⟩ := getRole_mem hx
    rw [hx] at hw
    have hroot := ha rj hrg
    obtain ⟨hk, _⟩ := rooted_walkN hroot hw
    unfold InSubtree
    rw [hx]
    unfold chainIds
    exact List.mem_map_of_mem _ (walk_mem_chain hw hk)

lemma inSubtree_trans {g : RoleGraph} (hn : NodupIds g) (ha : Acyclic g) {a b j : Nat}
    (hab : InSubtree g a b) (hbj : InSubtree g b j) : InSubtree g a j := by
  obtain ⟨k₁, rb, hgb, hw₁⟩ := inSubtree_walk hn hbj
  obtain ⟨k₂, ra, hga, hw₂⟩ := inSubtree_walk hn hab
  rw [hgb] at hw₂
  have hcomp : walkN g (k₁ + k₂) (getRole g j) = some ra := by
    rw [walkN_add, hw₁]
    exact hw₂
  have h := walk_inSubtree ha hcomp
  rw [(getRole_mem hga).2] at h
  exact h

lemma child_inSubtree {g : RoleGraph} (hn : NodupIds g) (ha : Acyclic g) {w : Nat} {c : Role}
    (hc : c ∈ childrenOf g w) (hw : w ∈ ids g) : InSubtree g w c.id := by
  obtain ⟨hcg, hcp⟩ := mem_childrenOf.mp hc
  have hgw : (getRole g w).isSome = true := getRole_isSome.mpr hw
  match hx : getRole g w with
  | none => rw [hx] at hgw; simp at hgw
  | some rw' =>
    have hrid : rw'.id = w := (getRole_mem hx).2
    have hwalk : walkN g 1 (getRole g c.id) = some rw' := by
      rw [getRole_self hn hcg]
      have hstep : walkN g 1 (some c) = roleParent g c := rfl
      rw [hstep]
      unfold roleParent
      rw [hcp]
      show getRole g w = some rw'
      exact hx
    have h := walk_inSubtree ha hwalk
    rw [hrid] at h
    exact h

lemma inSubtree_antisymm {g : RoleGraph} (hn : NodupIds g) (ha : Acyclic g) {a j : Nat}
    (h1 : InSubtree g a j) (h2 : InSubtree g j a) : a = j := by
  obtain ⟨k₁, ra, hga, hw₁⟩ := inSubtree_walk hn h1
  obtain ⟨k₂, rj, hgj, hw₂⟩ := inSubtree_walk hn h2
  rw [hga] at hw₂
  have hcomp : walkN g (k₁ + k₂) (getRole g j) = some rj := by
    rw [walkN_add, hw₁]
    exact hw₂
  rw [hgj] at hcomp
  have hroot := ha rj (getRole_mem hgj).1
  have hk := no_return hroot hcomp
  have hk₁ : k₁ = 0 := by omega
  rw [hk₁, walkN_zero, hgj] at hw₁
  injection hw₁ with hw₁
  have hra : ra.id = a := (getRole_mem hga).2
  have hrj : rj.id = j := (getRole_mem hgj).2
  rw [← hra, ← hw₁, hrj]

lemma walk_diff {g : RoleGraph} {k₁ k₂ : Nat} {c : Option Role} {x₁ x₂ : Role}
    (h₁ : walkN g k₁ c = some x₁) (h₂ : walkN g k₂ c = some x₂) (hle : k₁ ≤ k₂) :
    walkN g (k₂ - k₁) (some x₁) = some x₂ := by
  have heq : k₂ = k₁ + (k₂ - k₁) := by omega
  rw [heq, walkN_add, h₁] at h₂
  exact h₂

lemma sibling_disjoint {g : RoleGraph} (hn : NodupIds g) (ha : Acyclic g) {w : Nat}
    {c₁ c₂ : Role} (h₁ : c₁ ∈ childrenOf g w) (h₂ : c₂ ∈ childrenOf g w)
    (hne : c₁.id ≠ c₂.id) (hw : w ∈ ids g) {j : Nat}
    (hj₁ : InSubtree g c₁.id j) (hj₂ : InSubtree g c₂.id j) : False := by
  have hgw : (getRole g w).isSome = true := getRole_isSome.mpr hw
  match hx : getRole g w with
  | none => rw [hx] at hgw; simp at hgw
  | some rw' =>
    have key : ∀ (ca cb : Role), ca ∈ childrenOf g w → cb ∈ childrenOf g w →
        ca.id ≠ cb.id →
        ∀ (ka kb : Nat), walkN g ka (getRole g j) = some ca →
        walkN g kb (getRole g j) = some cb → ka ≤ kb → False := by
      intro ca cb hca hcb hcab ka kb hwa hwb hle
      obtain ⟨hcag, hcap⟩ := mem_childrenOf.mp hca
      obtain ⟨hcbg, hcbp⟩ := mem_childrenOf.mp hcb
      have hd := walk_diff hwa hwb hle
      by_cases hd0 : kb - ka = 0
      · rw [hd0, walkN_zero] at hd
        injection hd with hd
        exact hcab (by rw [hd])
      · have hstepa : walkN g 1 (some ca) = some rw' := by
          have hs : walkN g 1 (some ca) = roleParent g ca := rfl
          rw [hs]
          unfold roleParent
          rw [hcap]
          show getRole g w = some rw'
          exact hx
        have hstepb : walkN g 1 (some cb) = some rw' := by
          have hs : walkN g 1 (some cb) = roleParent g cb := rfl
          rw [hs]
          unfold roleParent
          rw [hcbp]
          show getRole g w = some rw'
          exact hx
        have hsplit : kb - ka = 1 + (kb - ka - 1) := by omega
        rw [hsplit, walkN_add, hstepa] at hd
        have hloop : walkN g ((kb - ka - 1) + 1) (some rw') = some rw' := by
          rw [walkN_add, hd]
          exact hstepb
        have hroot := ha rw' (getRole_mem hx).1
        have := no_return hroot hloop
        omega
    obtain ⟨ka, ra, hgra, hwa⟩ := inSubtree_walk hn hj₁
    obtain ⟨kb, rb, hgrb, hwb⟩ := inSubtree_walk hn hj₂
    obtain ⟨hc1g, hc1p⟩ := mem_childrenOf.mp h₁
    obtain ⟨hc2g, hc2p⟩ := mem_childrenOf.mp h₂
    have hra : ra = c₁ := by
      have := getRole_self hn hc1g
      rw [this] at hgra
      injection hgra with h
      exact h.symm
    have hrb : rb = c₂ := by
      have := getRole_self hn hc2g
      rw [this] at hgrb
      injection hgrb with h
      exact h.symm
    rw [hra] at hwa
    rw [hrb] at hwb
    rcases Nat.le_total ka kb with hle | hle
    · exact key c₁ c₂ h₁ h₂ hne ka kb hwa hwb hle
    · exact key c₂ c₁ h₂ h₁ (Ne.symm hne) kb ka hwb hwa hle

/-! ## Effective permissions: `get_all_permissions` versus the ancestor chain -/

lemma unionPerms_cons (a : Role) (l : List Role) :
    unionPerms (a :: l) = a.perms ∪ unionPerms l := rfl

/-- On a cycle-free graph the visited guard of `get_all_permissions` never
fires and the recursion computes exactly the union over the parent chain. -/
lemma gap_chain {g : RoleGraph} (hn : NodupIds g) :
    ∀ {m : Nat} {fuel : Nat} {r : Role} {visited : Finset Nat},
    r ∈ g → rooted g m (some r) = true →
    (chainRoles g m (some r)).length ≤ fuel →
    (∀ i ∈ chainIds g m (some r), i ∉ visited) →
    getAllPermissions g fuel r visited = unionPerms (chainRoles g m (some r)) := by
  intro m
  induction m with
  | zero =>
    intro fuel r visited _ hm _ _
    rw [rooted_zero] at hm
    cases hm
  | succ m ih =>
    intro fuel r visited hr hm hlen hvis
    have hm' : rooted g m (roleParent g r) = true := by rw [← rooted_succ]; exact hm
    have hnd := chain_nodup hn hr hm
    rw [chainRoles_succ, List.length_cons] at hlen
    obtain ⟨fuel', rfl⟩ : ∃ k, fuel = k + 1 := ⟨fuel - 1, by omega⟩
    have hrvis : r.id ∉ visited := by
      apply hvis
      unfold chainIds
      rw [chainRoles_succ, List.map_cons]
      exact List.mem_cons_self _ _
    rw [chainRoles_succ]
    unfold getAllPermissions
    rw [if_neg hrvis]
    cases hp : roleParent g r with
    | none =>
      show r.perms = unionPerms (r :: chainRoles g m none)
      rw [chainRoles_none, unionPerms_cons]
      unfold unionPerms
      simp
    | some p =>
      rw [hp] at hm' hlen
      show r.perms ∪ getAllPermissions g fuel' p (insert r.id visited)
          = unionPerms (r :: chainRoles g m (some p))
      have hpg : p ∈ g := roleParent_mem hp
      have htail : getAllPermissions g fuel' p (insert r.id visited)
          = unionPerms (chainRoles g m (some p)) := by
        apply ih hpg hm' (by omega)
        intro i hi
        rw [Finset.mem_insert]
        push_neg
        constructor
        · -- i ≠ r.id: the full chain is nodup and i sits in the tail
          intro hir
          unfold chainIds at hnd
          rw [chainRoles_succ, List.map_cons, List.nodup_cons, hp] at hnd
          apply hnd.1
          rw [← hir]
          exact hi
        · apply hvis
          unfold chainIds
          rw [chainRoles_succ, List.map_cons, hp]
          exact List.mem_cons.mpr (Or.inr hi)
      rw [htail, unionPerms_cons]

/-- `role.get_all_permissions()` on a cycle-free graph is the union of the
direct permission sets along the full parent chain. -/
lemma gap_top {g : RoleGraph} (hn : NodupIds g) (ha : Acyclic g) {r : Role} (hr : r ∈ g) :
    getAllPermissionsTop g r = unionPerms (chainRoles g g.length (some r)) := by
  unfold getAllPermissionsTop
  apply gap_chain hn hr (ha r hr)
  · exact Nat.le_succ_of_le (chain_length_le hn hr (ha r hr))
  · intro i _
    exact Finset.not_mem_empty i

/-- The full chain of `r` is `r` followed by the full chain of its parent. -/
lemma chain_decomp {g : RoleGraph} (hn : NodupIds g) (ha : Acyclic g) {r : Role}
    (hr : r ∈ g) :
    chainRoles g g.length (some r) = r :: chainRoles g g.length (roleParent g r) := by
  obtain ⟨n', hlen⟩ : ∃ k, g.length = k + 1 := by
    cases hg : g with
    | nil => rw [hg] at hr; cases hr
    | cons a l => exact ⟨l.length, by simp⟩
  have hroot := ha r hr
  rw [hlen, chainRoles_succ]
  have hm' : rooted g n' (roleParent g r) = true := by
    rw [← rooted_succ, ← hlen]
    exact hroot
  rw [@chain_stable g n' (n' + 1) (roleParent g r) hm' (by omega)]

/-- C3 general part: `get_all_permissions` equals its spec description. -/
lemma gap_spec {g : RoleGraph} (hn : NodupIds g) (ha : Acyclic g) {r : Role} (hr : r ∈ g) :
    getAllPermissionsTop g r = specEffectivePermissions g r := by
  rw [gap_top hn ha hr, chain_decomp hn ha hr, unionPerms_cons]
  unfold specEffectivePermissions ancestorsOf
  rfl

/-- C3: on a cycle-free graph, the effective permission set computed by
`get_all_permissions` equals the union of the role's direct set and the direct
sets of all its ancestors; in particular, for role `A` (root, `x:read`) with
child `B` (direct `y:write`), `B`'s effective set is exactly both. -/
theorem C3_effective_permissions :
    (∀ (g : RoleGraph) (r : Role), NodupIds g → Acyclic g → r ∈ g →
      getAllPermissionsTop g r = specEffectivePermissions g r)
    ∧ getAllPermissionsTop
        [⟨1, "A", none, 0, {"x:read"}⟩, ⟨2, "B", some 1, 1, {"y:write"}⟩]
        ⟨2, "B", some 1, 1, {"y:write"}⟩
      = {"x:read", "y:write"} := by
  constructor
  · intro g r hn ha hr
    exact gap_spec hn ha hr
  · decide

/-- Witness for C3: the general equation applied to the two-role example. -/
theorem C3_effective_permissions_witness :
    NodupIds [⟨1, "A", none, 0, {"x:read"}⟩, ⟨2, "B", some 1, 1, {"y:write"}⟩]
    ∧ Acyclic [⟨1, "A", none, 0, {"x:read"}⟩, ⟨2, "B", some 1, 1, {"y:write"}⟩]
    ∧ getAllPermissionsTop
        [⟨1, "A", none, 0, {"x:read"}⟩, ⟨2, "B", some 1, 1, {"y:write"}⟩]
        ⟨2, "B", some 1, 1, {"y:write"}⟩
      = specEffectivePermissions
        [⟨1, "A", none, 0, {"x:read"}⟩, ⟨2, "B", some 1, 1, {"y:write"}⟩]
        ⟨2, "B", some 1, 1, {"y:write"}⟩ := by
  refine ⟨by decide, by decide, ?_⟩
  exact C3_effective_permissions.1
    [⟨1, "A", none, 0, {"x:read"}⟩, ⟨2, "B", some 1, 1, {"y:write"}⟩]
    ⟨2, "B", some 1, 1, {"y:write"}⟩ (by decide) (by decide) (by decide)

/-- C4: across every direct parent→child edge of a cycle-free graph the
child's effective permission set contains the parent's. -/
theorem C4_effective_monotone (g : RoleGraph) (hn : NodupIds g) (ha : Acyclic g)
    (c p : Role) (hc : c ∈ g) (hp : roleParent g c = some p) :
    getAllPermissionsTop g p ⊆ getAllPermissionsTop g c := by
  have hpg : p ∈ g := roleParent_mem hp
  rw [gap_top hn ha hc, gap_top hn ha hpg, chain_decomp hn ha hc, hp, unionPerms_cons]
  exact Finset.subset_union_right

/-- Witness for C4: the edge `A → B` of the two-role example. -/
theorem C4_effective_monotone_witness :
    roleParent [⟨1, "A", none, 0, {"x:read"}⟩, ⟨2, "B", some 1, 1, {"y:write"}⟩]
      ⟨2, "B", some 1, 1, {"y:write"}⟩ = some ⟨1, "A", none, 0, {"x:read"}⟩
    ∧ getAllPermissionsTop [⟨1, "A", none, 0, {"x:read"}⟩, ⟨2, "B", some 1, 1, {"y:write"}⟩]
        ⟨1, "A", none, 0, {"x:read"}⟩
      ⊆ getAllPermissionsTop [⟨1, "A", none, 0, {"x:read"}⟩, ⟨2, "B", some 1, 1, {"y:write"}⟩]
        ⟨2, "B", some 1, 1, {"y:write"}⟩ := by
  refine ⟨by decide, ?_⟩
  exact C4_effective_monotone
    [⟨1, "A", none, 0, {"x:read"}⟩, ⟨2, "B", some 1, 1, {"y:write"}⟩]
    (by decide) (by decide)
    ⟨2, "B", some 1, 1, {"y:write"}⟩ ⟨1, "A", none, 0, {"x:read"}⟩
    (by decide) (by decide)

/-! ## The cycle checks of `set_role_parent` -/

/-- With enough fuel, the unguarded ancestor walk `findIdUp` terminates and
answers exactly "does `t` lie on the chain". -/
lemma findIdUp_spec {g : RoleGraph} (t : Nat) :
    ∀ {m fuel : Nat} {c : Option Role}, rooted g m c = true →
    (chainRoles g m c).length ≤ fuel →
    findIdUp g t fuel c = some (decide (t ∈ chainIds g m c)) := by
  intro m
  induction m with
  | zero =>
    intro fuel c hm _
    cases c with
    | none =>
      unfold chainIds
      rw [chainRoles_none]
      cases fuel <;> simp [findIdUp]
    | some r => rw [rooted_zero] at hm; cases hm
  | succ m ih =>
    intro fuel c hm hlen
    cases c with
    | none =>
      unfold chainIds
      rw [chainRoles_none]
      cases fuel <;> simp [findIdUp]
    | some r =>
      rw [rooted_succ] at hm
      rw [chainRoles_succ, List.length_cons] at hlen
      obtain ⟨fuel', rfl⟩ : ∃ k, fuel = k + 1 := ⟨fuel - 1, by omega⟩
      unfold chainIds
      rw [chainRoles_succ, List.map_cons]
      show (if r.id = t then some true else findIdUp g t fuel' (roleParent g r))
          = some (decide (t ∈ r.id :: chainIds g m (roleParent g r)))
      by_cases hrt : r.id = t
      · rw [if_pos hrt]
        simp [hrt]
      · rw [if_neg hrt]
        rw [ih hm (by omega)]
        have : (t ∈ r.id :: chainIds g m (roleParent g r))
            ↔ (t ∈ chainIds g m (roleParent g r)) := by
          rw [List.mem_cons]
          constructor
          · rintro (h | h)
            · exact absurd h.symm hrt
            · exact h
          · exact Or.inr
        simp [this]

/-- `InSubtree g rid p` (the new parent equals the role or descends from it)
makes `_would_create_cycle` answer `True`. -/
lemma wouldCreateCycle_true {g : RoleGraph} (hn : NodupIds g) (ha : Acyclic g)
    {rid p : Nat} {prow : Role} (hgp : getRole g p = some prow)
    (hsub : InSubtree g rid p) :
    wouldCreateCycle g (g.length + 1) rid prow = some true := by
  have hpg : prow ∈ g := (getRole_mem hgp).1
  have hroot := ha prow hpg
  unfold wouldCreateCycle
  rw [findIdUp_spec rid hroot (Nat.le_succ_of_le (chain_length_le hn hpg hroot))]
  unfold InSubtree at hsub
  rw [hgp] at hsub
  simp [hsub]

/-- The rejection half of C2: with the table cycle-free, reparenting onto
itself or onto any of its descendants raises the circular-reference
`ValueError` before any mutation. -/
lemma setRoleParent_rejects {g : RoleGraph} (hn : NodupIds g) (hz : ZeroFree g)
    (ha : Acyclic g) {rid p : Nat} (hsub : InSubtree g rid p) :
    setRoleParent g rid (some p) = .error .cycleDetected := by
  obtain ⟨hrid_mem, hp_mem⟩ := inSubtree_mem hsub
  have hp0 : p ≠ 0 := fun h => hz (h ▸ hp_mem)
  have hrs : (getRole g rid).isSome = true := getRole_isSome.mpr hrid_mem
  have hps : (getRole g p).isSome = true := getRole_isSome.mpr hp_mem
  match hgr : getRole g rid with
  | none => rw [hgr] at hrs; simp at hrs
  | some ridrow =>
    match hgp : getRole g p with
    | none => rw [hgp] at hps; simp at hps
    | some prow =>
      have hridid : ridrow.id = rid := (getRole_mem hgr).2
      have hwcc : wouldCreateCycle g (g.length + 1) ridrow.id prow = some true := by
        rw [hridid]
        exact wouldCreateCycle_true hn ha hgp hsub
      have hval : validateParent g ridrow (some p) = .error .cycleDetected := by
        unfold validateParent
        show (if p = 0 then Except.ok ()
          else match getRole g p with
            | none => Except.error HErr.parentNotFound
            | some pr =>
              match wouldCreateCycle g (g.length + 1) ridrow.id pr with
              | none => Except.error HErr.fuelOut
              | some true => Except.error HErr.cycleDetected
              | some false =>
                match isAncestorOf g (g.length + 1) ridrow pr with
                | none => Except.error HErr.fuelOut
                | some true => Except.error HErr.descendantParent
                | some false => Except.ok () : Except HErr Unit)
          = Except.error HErr.cycleDetected
        rw [if_neg hp0, hgp]
        show (match wouldCreateCycle g (g.length + 1) ridrow.id prow with
          | none => Except.error HErr.fuelOut
          | some true => Except.error HErr.cycleDetected
          | some false =>
            match isAncestorOf g (g.length + 1) ridrow prow with
            | none => Except.error HErr.fuelOut
            | some true => Except.error HErr.descendantParent
            | some false => Except.ok () : Except HErr Unit) = Except.error HErr.cycleDetected
        rw [hwcc]
      unfold setRoleParent
      rw [hgr]
      show (match validateParent g ridrow (some p) with
        | Except.error e => Except.error e
        | Except.ok _ =>
          match updateLoop ((setParentId g rid (some p)).length + 1)
              (setParentId g rid (some p)) [rid] with
          | none => Except.error HErr.fuelOut
          | some g'' => Except.ok g'' : Except HErr RoleGraph)
        = Except.error HErr.cycleDetected
      rw [hval]

/-! ## Characterizing the successful service calls -/

lemma newRoleLevel_none {g : RoleGraph} : newRoleLevel g none = some 0 := rfl

lemma newRoleLevel_somep {g : RoleGraph} {p : Nat} :
    newRoleLevel g (some p)
      = if p = 0 then some 0 else (getRole g p).map (fun pr => pr.level + 1) := rfl

lemma validateParent_some {g : RoleGraph} {role : Role} {p : Nat} :
    validateParent g role (some p)
      = if p = 0 then .ok ()
        else match getRole g p with
          | none => .error .parentNotFound
          | some pr => checkCycle g role pr := rfl

lemma createRole_ok {g : RoleGraph} {newId : Nat} {nm : String} {pid : Option Nat}
    {g₂ : RoleGraph} (h : createRole g newId nm pid = .ok g₂) :
    newId ≠ 0 ∧ newId ∉ ids g ∧
    ∃ lvl, newRoleLevel g pid = some lvl ∧ g₂ = g ++ [⟨newId, nm, pid, lvl, ∅⟩] := by
  unfold createRole at h
  by_cases hdup : (newId = 0 ∨ newId ∈ ids g ∨ nm ∈ g.map (·.name))
  · rw [if_pos hdup] at h
    exact Except.noConfusion h
  · rw [if_neg hdup] at h
    push_neg at hdup
    refine ⟨hdup.1, hdup.2.1, ?_⟩
    cases hl : newRoleLevel g pid with
    | none => rw [hl] at h; exact Except.noConfusion h
    | some lvl =>
      rw [hl] at h
      have h' : Except.ok (ε := HErr) (g ++ [⟨newId, nm, pid, lvl, ∅⟩]) = .ok g₂ := h
      injection h' with h'
      exact ⟨lvl, rfl, h'.symm⟩

lemma newRoleLevel_cases {g : RoleGraph} {pid : Option Nat} {lvl : Nat}
    (h : newRoleLevel g pid = some lvl) :
    (pid = none ∧ lvl = 0) ∨ (pid = some 0 ∧ lvl = 0)
    ∨ (∃ p pr, pid = some p ∧ p ≠ 0 ∧ getRole g p = some pr ∧ lvl = pr.level + 1) := by
  cases pid with
  | none =>
    left
    have h' : some 0 = some lvl := h
    injection h' with h'
    exact ⟨rfl, h'.symm⟩
  | some p =>
    rw [newRoleLevel_somep] at h
    by_cases hp : p = 0
    · rw [if_pos hp] at h
      injection h with h
      exact Or.inr (Or.inl ⟨by rw [hp], h.symm⟩)
    · rw [if_neg hp] at h
      cases hgp : getRole g p with
      | none => rw [hgp] at h; exact Option.noConfusion h
      | some pr =>
        rw [hgp] at h
        have h' : some (pr.level + 1) = some lvl := h
        injection h' with h'
        exact Or.inr (Or.inr ⟨p, pr, rfl, hp, hgp, h'.symm⟩)

lemma checkCycle_ok {g : RoleGraph} {role pr : Role} (h : checkCycle g role pr = .ok ()) :
    wouldCreateCycle g (g.length + 1) role.id pr = some false
    ∧ isAncestorOf g (g.length + 1) role pr = some false := by
  unfold checkCycle at h
  cases hwcc : wouldCreateCycle g (g.length + 1) role.id pr with
  | none => rw [hwcc] at h; exact Except.noConfusion h
  | some b =>
    rw [hwcc] at h
    cases b with
    | true => exact Except.noConfusion h
    | false =>
      have h' : (match isAncestorOf g (g.length + 1) role pr with
        | none => (.error .fuelOut : Except HErr Unit)
        | some true => .error .descendantParent
        | some false => .ok ()) = .ok () := h
      cases hanc : isAncestorOf g (g.length + 1) role pr with
      | none => rw [hanc] at h'; exact Except.noConfusion h'
      | some b2 =>
        rw [hanc] at h'
        cases b2 with
        | true => exact Except.noConfusion h'
        | false => exact ⟨rfl, rfl⟩

lemma validateParent_ok {g : RoleGraph} {role : Role} {pid : Option Nat}
    (h : validateParent g role pid = .ok ()) :
    pid = none ∨ pid = some 0 ∨
    ∃ p pr, pid = some p ∧ p ≠ 0 ∧ getRole g p = some pr
      ∧ wouldCreateCycle g (g.length + 1) role.id pr = some false
      ∧ isAncestorOf g (g.length + 1) role pr = some false := by
  cases pid with
  | none => exact Or.inl rfl
  | some p =>
    by_cases hp : p = 0
    · exact Or.inr (Or.inl (by rw [hp]))
    · right; right
      rw [validateParent_some, if_neg hp] at h
      cases hgp : getRole g p with
      | none => rw [hgp] at h; exact Except.noConfusion h
      | some pr =>
        rw [hgp] at h
        have h' : checkCycle g role pr = .ok () := h
        obtain ⟨h1, h2⟩ := checkCycle_ok h'
        exact ⟨p, pr, rfl, hp, hgp, h1, h2⟩

lemma setRoleParent_ok {g : RoleGraph} {rid : Nat} {pid : Option Nat} {g₂ : RoleGraph}
    (h : setRoleParent g rid pid = .ok g₂) :
    ∃ ridrow, getRole g rid = some ridrow
    ∧ validateParent g ridrow pid = .ok ()
    ∧ updateLoop ((setParentId g rid pid).length + 1) (setParentId g rid pid) [rid]
        = some g₂ := by
  unfold setRoleParent at h
  cases hgr : getRole g rid with
  | none => rw [hgr] at h; exact Except.noConfusion h
  | some role =>
    rw [hgr] at h
    have h' : (match validateParent g role pid with
      | .error e => (.error e : Except HErr RoleGraph)
      | .ok _ =>
        match updateLoop ((setParentId g rid pid).length + 1) (setParentId g rid pid) [rid] with
        | none => .error .fuelOut
        | some g'' => .ok g'') = .ok g₂ := h
    cases hval : validateParent g role pid with
    | error e => rw [hval] at h'; exact Except.noConfusion h'
    | ok u =>
      rw [hval] at h'
      cases u
      refine ⟨role, rfl, hval, ?_⟩
      cases hup : updateLoop ((setParentId g rid pid).length + 1) (setParentId g rid pid) [rid]
        with
      | none => rw [hup] at h'; exact Except.noConfusion h'
      | some gg =>
        rw [hup] at h'
        have h'' : Except.ok (ε := HErr) gg = .ok g₂ := h'
        injection h'' with h''
        rw [h'']

/-! ## Row maps and appends -/

lemma getRole_map {f : Role → Role} (hf : ∀ r, (f r).id = r.id) (g : RoleGraph) (j : Nat) :
    getRole (g.map f) j = (getRole g j).map f := by
  unfold getRole
  induction g with
  | nil => rfl
  | cons a l ih =>
    rw [List.map_cons, List.find?_cons, List.find?_cons]
    by_cases hj : (a.id == j) = true
    · have hjf : ((f a).id == j) = true := by rw [hf]; exact hj
      rw [hj, hjf]
      rfl
    · have hja : (a.id == j) = false := by simpa using hj
      have hjf : ((f a).id == j) = false := by rw [hf]; exact hja
      rw [hja, hjf]
      exact ih

lemma ids_map {f : Role → Role} (hf : ∀ r, (f r).id = r.id) (g : RoleGraph) :
    ids (g.map f) = ids g := by
  induction g with
  | nil => rfl
  | cons a l ih =>
    unfold ids at *
    rw [List.map_cons, List.map_cons, List.map_cons, hf]
    rw [ih]

lemma parAdj_id (rid : Nat) (pid : Option Nat) (r : Role) :
    (parAdj rid pid r).id = r.id := by
  unfold parAdj
  by_cases h : r.id = rid <;> simp [h]

lemma parAdj_eq_of_ne {rid : Nat} {pid : Option Nat} {r : Role} (h : r.id ≠ rid) :
    parAdj rid pid r = r := if_neg h

lemma parAdj_rid {rid : Nat} {pid : Option Nat} {r : Role} (h : r.id = rid) :
    parAdj rid pid r = { r with parent_id := pid } := if_pos h

lemma setParentId_ids (g : RoleGraph) (rid : Nat) (pid : Option Nat) :
    ids (setParentId g rid pid) = ids g :=
  ids_map (parAdj_id rid pid) g

lemma setParentId_length (g : RoleGraph) (rid : Nat) (pid : Option Nat) :
    (setParentId g rid pid).length = g.length := List.length_map g _

lemma getRole_setParentId (g : RoleGraph) (rid : Nat) (pid : Option Nat) (j : Nat) :
    getRole (setParentId g rid pid) j = (getRole g j).map (parAdj rid pid) :=
  getRole_map (parAdj_id rid pid) g j

lemma getRole_none_iff {g : RoleGraph} {j : Nat} : getRole g j = none ↔ j ∉ ids g := by
  constructor
  · intro h hj
    have := getRole_isSome.mpr hj
    rw [h] at this
    simp at this
  · intro hj
    cases hx : getRole g j with
    | none => rfl
    | some r =>
      exfalso
      apply hj
      rw [← getRole_isSome, hx]
      rfl

lemma getRole_append_of_some {g : RoleGraph} {x : Role} {j : Nat} {r : Role}
    (h : getRole g j = some r) : getRole (g ++ [x]) j = some r := by
  unfold getRole at *
  induction g with
  | nil => exact Option.noConfusion h
  | cons a l ih =>
    rw [List.cons_append, List.find?_cons]
    rw [List.find?_cons] at h
    by_cases hj : (a.id == j) = true
    · rw [hj] at h ⊢
      exact h
    · have hja : (a.id == j) = false := by simpa using hj
      rw [hja] at h ⊢
      exact ih h

lemma getRole_append_of_none {g : RoleGraph} {x : Role} {j : Nat}
    (h : getRole g j = none) :
    getRole (g ++ [x]) j = if x.id == j then some x else none := by
  unfold getRole at *
  induction g with
  | nil =>
    rw [List.nil_append, List.find?_cons]
    cases hx : (x.id == j) <;> simp [hx]
  | cons a l ih =>
    rw [List.cons_append, List.find?_cons]
    rw [List.find?_cons] at h
    by_cases hj : (a.id == j) = true
    · rw [hj] at h
      exact Option.noConfusion h
    · have hja : (a.id == j) = false := by simpa using hj
      rw [hja] at h ⊢
      exact ih h

/-! ## `updateLoop` equations and structural preservation -/

lemma updateLoop_nil {fuel : Nat} {g : RoleGraph} : updateLoop fuel g [] = some g := by
  cases fuel <;> rfl

lemma updateLoop_cons_zero {g : RoleGraph} {rid : Nat} {rest : List Nat} :
    updateLoop 0 g (rid :: rest) = none := rfl

lemma updateLoop_cons_succ {fuel : Nat} {g : RoleGraph} {rid : Nat} {rest : List Nat} :
    updateLoop (fuel + 1) g (rid :: rest)
      = match getRole g rid with
        | none => updateLoop fuel g rest
        | some r =>
          updateLoop fuel (setLevel g rid (expectedLevel g r))
            (((childrenOf (setLevel g rid (expectedLevel g r)) rid).map (·.id)) ++ rest) := rfl

lemma updateLoop_structEq : ∀ {fuel : Nat} {g : RoleGraph} {l : List Nat} {g₂ : RoleGraph},
    updateLoop fuel g l = some g₂ → StructEq g g₂ := by
  intro fuel
  induction fuel with
  | zero =>
    intro g l g₂ h
    cases l with
    | nil =>
      rw [updateLoop_nil] at h
      injection h with h
      rw [← h]
      rfl
    | cons a rest => rw [updateLoop_cons_zero] at h; exact Option.noConfusion h
  | succ fuel ih =>
    intro g l g₂ h
    cases l with
    | nil =>
      rw [updateLoop_nil] at h
      injection h with h
      rw [← h]
      rfl
    | cons rid rest =>
      rw [updateLoop_cons_succ] at h
      cases hx : getRole g rid with
      | none =>
        rw [hx] at h
        exact ih h
      | some r =>
        rw [hx] at h
        exact structEq_trans (setLevel_structEq g rid (expectedLevel g r)) (ih h)

/-! ## `create_role_with_parent` preserves the invariant -/

lemma ids_append {g : RoleGraph} {x : Role} : ids (g ++ [x]) = ids g ++ [x.id] := by
  simp [ids]

lemma roleParent_append {g : RoleGraph} {x : Role} (hpo : ParentsOk g) (hz : ZeroFree g)
    (hx0 : x.id ≠ 0) {r : Role} (hr : r ∈ g) :
    roleParent (g ++ [x]) r = roleParent g r := by
  unfold roleParent
  cases hpid : r.parent_id with
  | none => rfl
  | some q =>
    show getRole (g ++ [x]) q = getRole g q
    rcases hpo r hr q hpid with hq | hq
    · cases hgq : getRole g q with
      | none => exact absurd hq (getRole_none_iff.mp hgq)
      | some qr => rw [getRole_append_of_some hgq]
    · subst hq
      have hgq : getRole g 0 = none := getRole_none_iff.mpr hz
      rw [getRole_append_of_none hgq, hgq]
      have hxid : (x.id == 0) = false := by simpa using hx0
      simp [hxid]

lemma rooted_append {g : RoleGraph} {x : Role} (hpo : ParentsOk g) (hz : ZeroFree g)
    (hx0 : x.id ≠ 0) :
    ∀ {m : Nat} {r : Role}, r ∈ g → rooted g m (some r) = true →
    rooted (g ++ [x]) m (some r) = true := by
  intro m
  induction m with
  | zero =>
    intro r _ hm
    rw [rooted_zero] at hm
    cases hm
  | succ m ih =>
    intro r hr hm
    rw [rooted_succ] at hm
    rw [rooted_succ, roleParent_append hpo hz hx0 hr]
    cases hp : roleParent g r with
    | none => exact rooted_none
    | some q =>
      rw [hp] at hm
      exact ih (roleParent_mem hp) hm

lemma createRole_inv {g : RoleGraph} {newId : Nat} {nm : String} {pid : Option Nat}
    {g₂ : RoleGraph} (hinv : HierInv g) (h : createRole g newId nm pid = .ok g₂) :
    HierInv g₂ := by
  obtain ⟨hn, hz, hpo, ha⟩ := hinv
  obtain ⟨h0, hfresh, lvl, hlvl, rfl⟩ := createRole_ok h
  set x : Role := ⟨newId, nm, pid, lvl, ∅⟩ with hxdef
  have hx0 : x.id ≠ 0 := h0
  refine ⟨?_, ?_, ?_, ?_⟩
  · unfold NodupIds
    rw [ids_append]
    rw [List.nodup_append]
    refine ⟨hn, List.nodup_singleton _, ?_⟩
    intro a hag hax
    rw [List.mem_singleton] at hax
    rw [hax] at hag
    exact hfresh hag
  · unfold ZeroFree
    rw [ids_append]
    intro h0mem
    rcases List.mem_append.mp h0mem with hcase | hcase
    · exact hz hcase
    · rw [List.mem_singleton] at hcase
      exact h0 hcase.symm
  · intro r hr p hpid
    rcases List.mem_append.mp hr with hcase | hcase
    · rcases hpo r hcase p hpid with hq | hq
      · left
        rw [ids_append]
        exact List.mem_append.mpr (Or.inl hq)
      · right; exact hq
    · rw [List.mem_singleton] at hcase
      subst hcase
      have hpid' : pid = some p := hpid
      rcases newRoleLevel_cases hlvl with ⟨hc, _⟩ | ⟨hc, _⟩ | ⟨p', pr, hc, hp0', hgp, _⟩
      · rw [hc] at hpid'; cases hpid'
      · rw [hc] at hpid'
        injection hpid' with hpid'
        right; exact hpid'.symm
      · rw [hc] at hpid'
        injection hpid' with hpid'
        left
        rw [ids_append]
        refine List.mem_append.mpr (Or.inl ?_)
        rw [← hpid']
        exact mem_ids.mpr ⟨pr, (getRole_mem hgp).1, (getRole_mem hgp).2⟩
  · intro r hr
    have hlen : (g ++ [x]).length = g.length + 1 := by simp
    rcases List.mem_append.mp hr with hcase | hcase
    · have h1 := ha r hcase
      have h2 := rooted_append hpo hz hx0 hcase h1
      exact rooted_mono (by omega) h2
    · rw [List.mem_singleton] at hcase
      subst hcase
      rw [hlen, rooted_succ]
      have hparx : roleParent (g ++ [x]) x = match newRoleLevel g pid, pid with
          | _, _ => roleParent (g ++ [x]) x := rfl
      rcases newRoleLevel_cases hlvl with ⟨hc, _⟩ | ⟨hc, _⟩ | ⟨p', pr, hc, hp0', hgp, _⟩
      · have : roleParent (g ++ [x]) x = none := by
          unfold roleParent
          show (match x.parent_id with
            | none => none
            | some p => getRole (g ++ [x]) p) = none
          rw [show x.parent_id = pid from rfl, hc]
        rw [this]
        exact rooted_none
      · have : roleParent (g ++ [x]) x = none := by
          unfold roleParent
          show (match x.parent_id with
            | none => none
            | some p => getRole (g ++ [x]) p) = none
          rw [show x.parent_id = pid from rfl, hc]
          show getRole (g ++ [x]) 0 = none
          have hgq : getRole g 0 = none := getRole_none_iff.mpr hz
          rw [getRole_append_of_none hgq]
          have hxid : (x.id == 0) = false := by simpa using hx0
          simp [hxid]
        rw [this]
        exact rooted_none
      · have : roleParent (g ++ [x]) x = some pr := by
          unfold roleParent
          show (match x.parent_id with
            | none => none
            | some p => getRole (g ++ [x]) p) = some pr
          rw [show x.parent_id = pid from rfl, hc]
          show getRole (g ++ [x]) p' = some pr
          exact getRole_append_of_some hgp
        rw [this]
        exact rooted_append hpo hz hx0 (getRole_mem hgp).1 (ha pr (getRole_mem hgp).1)

lemma expectedLevel_append {g : RoleGraph} {x : Role} (hpo : ParentsOk g) (hz : ZeroFree g)
    (hx0 : x.id ≠ 0) {r : Role} (hr : r ∈ g) :
    expectedLevel (g ++ [x]) r = expectedLevel g r := by
  unfold expectedLevel
  rw [roleParent_append hpo hz hx0 hr]

lemma createRole_consistent {g : RoleGraph} {newId : Nat} {nm : String} {pid : Option Nat}
    {g₂ : RoleGraph} (hinv : HierInv g) (hc : Consistent g)
    (h : createRole g newId nm pid = .ok g₂) : Consistent g₂ := by
  obtain ⟨hn, hz, hpo, ha⟩ := hinv
  obtain ⟨h0, hfresh, lvl, hlvl, rfl⟩ := createRole_ok h
  set x : Role := ⟨newId, nm, pid, lvl, ∅⟩ with hxdef
  have hx0 : x.id ≠ 0 := h0
  intro r hr
  rcases List.mem_append.mp hr with hcase | hcase
  · rw [expectedLevel_append hpo hz hx0 hcase]
    exact hc r hcase
  · rw [List.mem_singleton] at hcase
    subst hcase
    unfold expectedLevel
    rcases newRoleLevel_cases hlvl with ⟨hcp, hl0⟩ | ⟨hcp, hl0⟩ | ⟨p', pr, hcp, hp0', hgp, hl⟩
    · have hpx : roleParent (g ++ [x]) x = none := by
        unfold roleParent
        show (match x.parent_id with
          | none => none
          | some p => getRole (g ++ [x]) p) = none
        rw [show x.parent_id = pid from rfl, hcp]
      rw [hpx]
      exact hl0
    · have hpx : roleParent (g ++ [x]) x = none := by
        unfold roleParent
        show (match x.parent_id with
          | none => none
          | some p => getRole (g ++ [x]) p) = none
        rw [show x.parent_id = pid from rfl, hcp]
        show getRole (g ++ [x]) 0 = none
        have hgq : getRole g 0 = none := getRole_none_iff.mpr hz
        rw [getRole_append_of_none hgq]
        have hxid : (x.id == 0) = false := by simpa using hx0
        simp [hxid]
      rw [hpx]
      exact hl0
    · have hpx : roleParent (g ++ [x]) x = some pr := by
        unfold roleParent
        show (match x.parent_id with
          | none => none
          | some p => getRole (g ++ [x]) p) = some pr
        rw [show x.parent_id = pid from rfl, hcp]
        show getRole (g ++ [x]) p' = some pr
        exact getRole_append_of_some hgp
      rw [hpx]
      exact hl

/-! ## `set_role_parent` keeps the graph cycle-free -/

/-- Walks that never step onto the reparented row are untouched. -/
lemma sp_walk_avoid {g : RoleGraph} {rid : Nat} {pid : Option Nat} :
    ∀ {m : Nat} {r : Role}, r ∈ g → rooted g m (some r) = true →
    rid ∉ chainIds g m (some r) →
    rooted (setParentId g rid pid) m (some (parAdj rid pid r)) = true := by
  intro m
  induction m with
  | zero =>
    intro r _ hm _
    rw [rooted_zero] at hm
    cases hm
  | succ m ih =>
    intro r hr hm hrid
    have hhead : r.id ≠ rid := by
      intro h
      apply hrid
      unfold chainIds
      rw [chainRoles_succ, List.map_cons]
      exact List.mem_cons.mpr (Or.inl h.symm)
    rw [rooted_succ] at hm
    rw [rooted_succ, parAdj_eq_of_ne hhead]
    have htail : rid ∉ chainIds g m (roleParent g r) := by
      intro hmem
      apply hrid
      unfold chainIds at hmem ⊢
      rw [chainRoles_succ, List.map_cons]
      exact List.mem_cons.mpr (Or.inr hmem)
    unfold roleParent
    cases hpid : r.parent_id with
    | none => exact rooted_none
    | some q =>
      show rooted (setParentId g rid pid) m (getRole (setParentId g rid pid) q) = true
      rw [getRole_setParentId]
      cases hgq : getRole g q with
      | none => exact rooted_none
      | some qr =>
        have hpq : roleParent g r = some qr := by
          unfold roleParent
          rw [hpid]
          exact hgq
        rw [hpq] at hm htail
        exact ih (roleParent_mem hpq) hm htail

/-- The reparented row itself is rooted in the new graph: its parent is gone,
dead, or — thanks to `_would_create_cycle` — a row whose chain avoids it. -/
lemma sp_rid_rooted {g : RoleGraph} {rid : Nat} {pid : Option Nat}
    (hn : NodupIds g) (hz : ZeroFree g) (ha : Acyclic g)
    {ridrow : Role} (hgr : getRole g rid = some ridrow)
    (hval : validateParent g ridrow pid = .ok ()) :
    rooted (setParentId g rid pid) (g.length + 1) (some (parAdj rid pid ridrow)) = true := by
  have hridid : ridrow.id = rid := (getRole_mem hgr).2
  rw [parAdj_rid hridid, rooted_succ]
  rcases validateParent_ok hval with hc | hc | ⟨p, pr, hc, hp0, hgp, hwcc, _⟩
  · subst hc
    exact rooted_none
  · subst hc
    show rooted (setParentId g rid (some 0)) g.length
      (getRole (setParentId g rid (some 0)) 0) = true
    rw [getRole_setParentId, getRole_none_iff.mpr hz]
    exact rooted_none
  · subst hc
    show rooted (setParentId g rid (some p)) g.length
      (getRole (setParentId g rid (some p)) p) = true
    rw [getRole_setParentId, hgp]
    have hpg : pr ∈ g := (getRole_mem hgp).1
    have hroot := ha pr hpg
    have hnotin : rid ∉ chainIds g g.length (some pr) := by
      have hspec := findIdUp_spec (g := g) ridrow.id hroot
        (Nat.le_succ_of_le (chain_length_le hn hpg hroot))
      unfold wouldCreateCycle at hwcc
      rw [hspec] at hwcc
      injection hwcc with hwcc
      rw [hridid] at hwcc
      intro hmem
      rw [decide_eq_true hmem] at hwcc
      cases hwcc
    exact sp_walk_avoid hpg hroot hnotin

/-- Every row of the reparented graph is rooted (at a generous fuel). -/
lemma sp_all_rooted {g : RoleGraph} {rid : Nat} {pid : Option Nat}
    (hn : NodupIds g) (hz : ZeroFree g) (ha : Acyclic g)
    {ridrow : Role} (hgr : getRole g rid = some ridrow)
    (hval : validateParent g ridrow pid = .ok ()) :
    ∀ {m : Nat} {y : Role}, y ∈ g → rooted g m (some y) = true →
    rooted (setParentId g rid pid) (m + (g.length + 1)) (some (parAdj rid pid y)) = true := by
  intro m
  induction m with
  | zero =>
    intro y _ hm
    rw [rooted_zero] at hm
    cases hm
  | succ m ih =>
    intro y hy hm
    by_cases hyid : y.id = rid
    · have hyr : y = ridrow :=
        id_inj hn hy (getRole_mem hgr).1 (by rw [hyid, (getRole_mem hgr).2])
      rw [hyr]
      exact rooted_mono (by omega) (sp_rid_rooted hn hz ha hgr hval)
    · rw [rooted_succ] at hm
      have harith : m + 1 + (g.length + 1) = (m + (g.length + 1)) + 1 := by omega
      rw [harith, parAdj_eq_of_ne hyid, rooted_succ]
      unfold roleParent
      cases hpid : y.parent_id with
      | none => exact rooted_none
      | some q =>
        show rooted (setParentId g rid pid) (m + (g.length + 1))
          (getRole (setParentId g rid pid) q) = true
        rw [getRole_setParentId]
        cases hgq : getRole g q with
        | none => exact rooted_none
        | some qr =>
          have hpq : roleParent g y = some qr := by
            unfold roleParent
            rw [hpid]
            exact hgq
          rw [hpq] at hm
          exact ih (roleParent_mem hpq) hm

lemma setParentId_acyclic {g : RoleGraph} {rid : Nat} {pid : Option Nat}
    (hn : NodupIds g) (hz : ZeroFree g) (ha : Acyclic g)
    {ridrow : Role} (hgr : getRole g rid = some ridrow)
    (hval : validateParent g ridrow pid = .ok ()) :
    Acyclic (setParentId g rid pid) := by
  intro r' hr'
  obtain ⟨y, hy, rfl⟩ := List.mem_map.mp hr'
  have h2 := sp_all_rooted hn hz ha hgr hval hy (ha y hy)
  have hn' : NodupIds (setParentId g rid pid) := by
    unfold NodupIds
    rw [setParentId_ids]
    exact hn
  exact rooted_canonical hn' hr' h2

lemma setRoleParent_inv {g : RoleGraph} {rid : Nat} {pid : Option Nat} {g₂ : RoleGraph}
    (hinv : HierInv g) (h : setRoleParent g rid pid = .ok g₂) :
    HierInv g₂ ∧ StructEq (setParentId g rid pid) g₂ := by
  obtain ⟨hn, hz, hpo, ha⟩ := hinv
  obtain ⟨ridrow, hgr, hval, hup⟩ := setRoleParent_ok h
  have hseq := updateLoop_structEq hup
  have hn' : NodupIds (setParentId g rid pid) := by
    unfold NodupIds
    rw [setParentId_ids]
    exact hn
  have hz' : ZeroFree (setParentId g rid pid) := by
    unfold ZeroFree
    rw [setParentId_ids]
    exact hz
  have hpo' : ParentsOk (setParentId g rid pid) := by
    intro r' hr' p hpid
    obtain ⟨y, hy, rfl⟩ := List.mem_map.mp hr'
    rw [setParentId_ids]
    by_cases hyid : y.id = rid
    · rw [parAdj_rid hyid] at hpid
      have hpid' : pid = some p := hpid
      rcases validateParent_ok hval with hc | hc | ⟨p', pr, hc, hp0, hgp, _, _⟩
      · rw [hc] at hpid'; cases hpid'
      · rw [hc] at hpid'
        injection hpid' with e
        right; exact e.symm
      · rw [hc] at hpid'
        injection hpid' with e
        left
        rw [← e]
        exact mem_ids.mpr ⟨pr, (getRole_mem hgp).1, (getRole_mem hgp).2⟩
    · rw [parAdj_eq_of_ne hyid] at hpid
      exact hpo y hy p hpid
  have ha' := setParentId_acyclic hn hz ha hgr hval
  exact ⟨⟨structEq_nodupIds hseq hn', structEq_zeroFree hseq hz',
    structEq_parentsOk hseq hpo', structEq_acyclic hseq ha'⟩, hseq⟩

lemma applyOps_cons {g : RoleGraph} {op : HierOp} {rest : List HierOp} :
    applyOps g (op :: rest) = applyOps (applyOpState g op) rest := rfl

lemma applyOpState_inv {g : RoleGraph} (op : HierOp) (hinv : HierInv g) :
    HierInv (applyOpState g op) := by
  unfold applyOpState
  cases hop : applyOp g op with
  | error e => exact hinv
  | ok g₂ =>
    cases op with
    | create i nm p => exact createRole_inv hinv hop
    | reparent rid p => exact (setRoleParent_inv hinv hop).1

lemma applyOps_inv {g : RoleGraph} (ops : List HierOp) (hinv : HierInv g) :
    HierInv (applyOps g ops) := by
  induction ops generalizing g with
  | nil => exact hinv
  | cons op rest ih =>
    rw [applyOps_cons]
    exact ih (applyOpState_inv op hinv)

/-! ## Cycle-freeness as "no role reachable from itself" -/

lemma transGen_walk {g : RoleGraph} (hn : NodupIds g) :
    ∀ {i j : Nat}, Relation.TransGen (ParentRel g) i j →
    ∀ rj, getRole g j = some rj →
    ∃ ri L, getRole g i = some ri ∧ 1 ≤ L ∧ walkN g L (some ri) = some rj := by
  intro i j htg
  induction htg with
  | single hrel =>
    intro rj hgj
    obtain ⟨r, hrg, hri, hrp⟩ := hrel
    refine ⟨r, 1, ?_, le_refl 1, ?_⟩
    · rw [← hri]
      exact getRole_self hn hrg
    · have hstep : walkN g 1 (some r) = roleParent g r := rfl
      rw [hstep]
      unfold roleParent
      rw [hrp]
      exact hgj
  | tail htg' hrel ih =>
    intro rj hgj
    obtain ⟨rb, hrbg, hrbi, hrbp⟩ := hrel
    have hgb : getRole g rb.id = some rb := getRole_self hn hrbg
    rw [hrbi] at hgb
    obtain ⟨ri, L, hgi, hL, hw⟩ := ih rb hgb
    refine ⟨ri, L + 1, hgi, by omega, ?_⟩
    rw [walkN_add L 1, hw]
    have hstep : walkN g 1 (some rb) = roleParent g rb := rfl
    rw [hstep]
    unfold roleParent
    rw [hrbp]
    exact hgj

lemma no_self_reach {g : RoleGraph} (hn : NodupIds g) (ha : Acyclic g) (i : Nat) :
    ¬ Relation.TransGen (ParentRel g) i i := by
  intro htg
  have hrow : ∃ r, getRole g i = some r := by
    obtain ⟨b, hrel, _⟩ := Relation.TransGen.head'_iff.mp htg
    obtain ⟨r, hrg, hri, _⟩ := hrel
    exact ⟨r, by rw [← hri]; exact getRole_self hn hrg⟩
  obtain ⟨r, hgi⟩ := hrow
  obtain ⟨ri, L, hgi', hL, hw⟩ := transGen_walk hn htg r hgi
  rw [hgi] at hgi'
  injection hgi' with hgi'
  rw [← hgi'] at hw
  have hroot := ha r (getRole_mem hgi).1
  have := no_return hroot hw
  omega

/-- C2: on a cycle-free table, `set_role_parent(role_id, new_parent_id)` with
`new_parent_id` equal to the role or to any of its descendants (that is,
`role_id` on the new parent's ancestor chain) fails with the
circular-reference `ValueError` and leaves the table unchanged; consequently
after any sequence of create/reparent service calls starting from an invariant
graph, no role is reachable from itself by following `parent_id`. -/
theorem C2_cycle_prevention :
    (∀ (g : RoleGraph) (rid p : Nat), NodupIds g → ZeroFree g → Acyclic g →
      InSubtree g rid p →
      setRoleParent g rid (some p) = .error .cycleDetected
      ∧ applyOpState g (.reparent rid (some p)) = g)
    ∧ (∀ (g₀ : RoleGraph) (ops : List HierOp), HierInv g₀ →
      ∀ i, ¬ Relation.TransGen (ParentRel (applyOps g₀ ops)) i i) := by
  constructor
  · intro g rid p hn hz ha hsub
    have h1 := setRoleParent_rejects hn hz ha hsub
    refine ⟨h1, ?_⟩
    unfold applyOpState
    have h2 : applyOp g (.reparent rid (some p)) = .error .cycleDetected := h1
    rw [h2]
  · intro g₀ ops hinv i
    have hinv' := applyOps_inv ops hinv
    exact no_self_reach hinv'.1 hinv'.2.2.2 i

/-- Witness for C2: reparenting role `1` under its own child `2` is rejected
with the table unchanged, and no role of a concretely built graph reaches
itself. -/
theorem C2_cycle_prevention_witness :
    NodupIds [⟨1, "A", none, 0, ∅⟩, ⟨2, "B", some 1, 1, ∅⟩]
    ∧ Acyclic [⟨1, "A", none, 0, ∅⟩, ⟨2, "B", some 1, 1, ∅⟩]
    ∧ InSubtree [⟨1, "A", none, 0, ∅⟩, ⟨2, "B", some 1, 1, ∅⟩] 1 2
    ∧ setRoleParent [⟨1, "A", none, 0, ∅⟩, ⟨2, "B", some 1, 1, ∅⟩] 1 (some 2)
        = .error .cycleDetected
    ∧ applyOpState [⟨1, "A", none, 0, ∅⟩, ⟨2, "B", some 1, 1, ∅⟩] (.reparent 1 (some 2))
        = [⟨1, "A", none, 0, ∅⟩, ⟨2, "B", some 1, 1, ∅⟩]
    ∧ ¬ Relation.TransGen
        (ParentRel (applyOps [] [.create 1 "A" none, .create 2 "B" (some 1)])) 2 2 := by
  have h1 := C2_cycle_prevention.1 [⟨1, "A", none, 0, ∅⟩, ⟨2, "B", some 1, 1, ∅⟩] 1 2
    (by decide) (by decide) (by decide) (by decide)
  have h2 := C2_cycle_prevention.2 [] [.create 1 "A" none, .create 2 "B" (some 1)]
    ⟨by decide, by decide, fun r hr => absurd hr (List.not_mem_nil r), by decide⟩ 2
  exact ⟨by decide, by decide, by decide, h1.1, h1.2, h2⟩

/-! ## Levels, depths and the pop value -/

lemma getRole_setLevel (g : RoleGraph) (i : Nat) (lvl : Nat) (j : Nat) :
    getRole (setLevel g i lvl) j = (getRole g j).map (lvlAdj i lvl) := by
  apply getRole_map
  intro r
  unfold lvlAdj
  by_cases h : r.id = i <;> simp [h]

lemma setLevel_ids (g : RoleGraph) (i lvl : Nat) : ids (setLevel g i lvl) = ids g := by
  apply ids_map
  intro r
  unfold lvlAdj
  by_cases h : r.id = i <;> simp [h]

lemma levelAt_setLevel_ne {g : RoleGraph} {i lvl j : Nat} (hne : j ≠ i) :
    levelAt (setLevel g i lvl) j = levelAt g j := by
  unfold levelAt
  rw [getRole_setLevel]
  cases hx : getRole g j with
  | none => rfl
  | some r =>
    have hid : r.id = j := (getRole_mem hx).2
    show (lvlAdj i lvl r).level = r.level
    unfold lvlAdj
    rw [if_neg (by rw [hid]; exact hne)]

lemma levelAt_setLevel_self {g : RoleGraph} {i lvl : Nat} (hlive : i ∈ ids g) :
    levelAt (setLevel g i lvl) i = lvl := by
  unfold levelAt
  rw [getRole_setLevel]
  cases hx : getRole g i with
  | none => exact absurd hlive (getRole_none_iff.mp hx)
  | some r =>
    have hid : r.id = i := (getRole_mem hx).2
    show (lvlAdj i lvl r).level = lvl
    unfold lvlAdj
    rw [if_pos hid]

lemma depth_child {g : RoleGraph} (hn : NodupIds g) (ha : Acyclic g) {r p : Role}
    (hr : r ∈ g) (hp : roleParent g r = some p) :
    depth g r.id = depth g p.id + 1 := by
  unfold depth
  rw [getRole_self hn hr, getRole_self hn (roleParent_mem hp)]
  rw [chain_decomp hn ha hr, hp, List.length_cons]

lemma depth_walk {g : RoleGraph} (hn : NodupIds g) (ha : Acyclic g) :
    ∀ {k : Nat} {j : Nat} {x : Role}, walkN g k (getRole g j) = some x →
    depth g j = k + depth g x.id := by
  intro k
  induction k with
  | zero =>
    intro j x hw
    rw [walkN_zero] at hw
    rw [(getRole_mem hw).2]
    omega
  | succ k ih =>
    intro j x hw
    cases hgj : getRole g j with
    | none => rw [hgj, walkN_none] at hw; cases hw
    | some rj =>
      rw [hgj] at hw
      have hw1 : walkN g 1 (some rj) = roleParent g rj := rfl
      cases hq : roleParent g rj with
      | none =>
        exfalso
        have : walkN g (k + 1) (some rj) = walkN g k (roleParent g rj) := rfl
        rw [this, hq, walkN_none] at hw
        cases hw
      | some q =>
        have hqg : q ∈ g := roleParent_mem hq
        have hstep : walkN g (k + 1) (some rj) = walkN g k (some q) := by
          have h1 : walkN g (k + 1) (some rj) = walkN g k (roleParent g rj) := rfl
          rw [h1, hq]
        rw [hstep] at hw
        have hwq : walkN g k (getRole g q.id) = some x := by
          rw [getRole_self hn hqg]
          exact hw
        have hdj : depth g j = depth g q.id + 1 := by
          have := depth_child hn ha (getRole_mem hgj).1 hq
          rw [(getRole_mem hgj).2] at this
          exact this
        rw [hdj, ih hwq]
        omega

lemma inSubtree_depth_le {g : RoleGraph} (hn : NodupIds g) (ha : Acyclic g) {a j : Nat}
    (h : InSubtree g a j) : depth g a ≤ depth g j := by
  obtain ⟨k, ra, hga, hw⟩ := inSubtree_walk hn h
  have := depth_walk hn ha hw
  have hra : ra.id = a := (getRole_mem hga).2
  rw [hra] at this
  omega

lemma c_not_in_child_subtree {g : RoleGraph} (hn : NodupIds g) (ha : Acyclic g)
    {c : Nat} {ca : Role} (hca : ca ∈ childrenOf g c) (hc : c ∈ ids g) :
    ¬ InSubtree g ca.id c := by
  intro hsub
  obtain ⟨hcag, hcap⟩ := mem_childrenOf.mp hca
  obtain ⟨k, ra, hga, hw⟩ := inSubtree_walk hn hsub
  have hra : ra = ca := by
    have h1 := getRole_self hn hcag
    rw [h1] at hga
    injection hga with h
    exact h.symm
  subst hra
  -- from the row of c we can walk k steps to ca and one more back to c's row
  have hcs : (getRole g c).isSome = true := getRole_isSome.mpr hc
  match hgc : getRole g c with
  | none => rw [hgc] at hcs; simp at hcs
  | some rc =>
    rw [hgc] at hw
    have hstep : walkN g 1 (some ra) = some rc := by
      have h1 : walkN g 1 (some ra) = roleParent g ra := rfl
      rw [h1]
      unfold roleParent
      rw [hcap]
      exact hgc
    have hloop : walkN g (k + 1) (some rc) = some rc := by
      rw [walkN_add k 1, hw]
      exact hstep
    have := no_return (ha rc (getRole_mem hgc).1) hloop
    omega

lemma walkN_mem {g : RoleGraph} : ∀ {k : Nat} {r x : Role}, r ∈ g →
    walkN g k (some r) = some x → x ∈ g := by
  intro k
  induction k with
  | zero =>
    intro r x hr hw
    rw [walkN_zero] at hw
    injection hw with hw
    rw [← hw]
    exact hr
  | succ k ih =>
    intro r x hr hw
    rw [walkN_succ] at hw
    cases hq : roleParent g r with
    | none => rw [hq, walkN_none] at hw; cases hw
    | some q =>
      rw [hq] at hw
      exact ih (roleParent_mem hq) hw

lemma subtree_step_down {g : RoleGraph} (hn : NodupIds g) (ha : Acyclic g) {c j : Nat}
    (hsub : InSubtree g c j) (hne : j ≠ c) :
    ∃ ca ∈ childrenOf g c, InSubtree g ca.id j := by
  obtain ⟨k, rc, hgc, hw⟩ := inSubtree_walk hn hsub
  have hrc : rc.id = c := (getRole_mem hgc).2
  cases k with
  | zero =>
    rw [walkN_zero] at hw
    exfalso
    apply hne
    have : (getRole g j).isSome = true := by rw [hw]; rfl
    match hgj : getRole g j with
    | none => rw [hgj] at this; simp at this
    | some rj =>
      rw [hgj] at hw
      injection hw with hw
      rw [← (getRole_mem hgj).2, hw, hrc]
  | succ k =>
    -- the walk's step k lands on a child of c
    match hgj : getRole g j with
    | none => rw [hgj, walkN_none] at hw; cases hw
    | some rj =>
      rw [hgj] at hw
      have hsplit : walkN g (k + 1) (some rj) = walkN g 1 (walkN g k (some rj)) := by
        rw [← walkN_add]
      rw [hsplit] at hw
      cases hwk : walkN g k (some rj) with
      | none => rw [hwk, walkN_none] at hw; cases hw
      | some x =>
        rw [hwk] at hw
        have hx1 : walkN g 1 (some x) = roleParent g x := rfl
        rw [hx1] at hw
        have hxg : x ∈ g := walkN_mem (getRole_mem hgj).1 hwk
        refine ⟨x, ?_, ?_⟩
        · refine mem_childrenOf.mpr ⟨hxg, ?_⟩
          unfold roleParent at hw
          cases hxp : x.parent_id with
          | none => rw [hxp] at hw; cases hw
          | some q =>
            rw [hxp] at hw
            have hrcq : rc.id = q := (getRole_mem hw).2
            have hqc : q = c := by rw [← hrcq]; exact hrc
            rw [hqc]
        · have hx' : walkN g k (getRole g j) = some x := by rw [hgj]; exact hwk
          exact walk_inSubtree ha hx'

/-! ## The touched set and pointwise consistency -/

lemma popLevel_eq {g : RoleGraph} {rid : Nat} {r : Role} (h : getRole g rid = some r) :
    popLevel g rid = expectedLevel g r := by
  unfold popLevel
  rw [h]

lemma levelAt_eq {g : RoleGraph} (hn : NodupIds g) {r : Role} (hr : r ∈ g) :
    levelAt g r.id = r.level := by
  unfold levelAt
  rw [getRole_self hn hr]

lemma consistent_levelAt {g : RoleGraph} (hn : NodupIds g) (hc : Consistent g) :
    ∀ j ∈ ids g, levelAt g j = popLevel g j := by
  intro j hj
  obtain ⟨r, hr, hrid⟩ := mem_ids.mp hj
  have hgr : getRole g j = some r := by rw [← hrid]; exact getRole_self hn hr
  unfold levelAt popLevel
  rw [hgr]
  exact hc r hr

lemma consistent_pointwise {g : RoleGraph} (hn : NodupIds g)
    (h : ∀ j ∈ ids g, levelAt g j = popLevel g j) : Consistent g := by
  intro r hr
  have hj : r.id ∈ ids g := mem_ids.mpr ⟨r, hr, rfl⟩
  have h' := h r.id hj
  unfold levelAt popLevel at h'
  rw [getRole_self hn hr] at h'
  exact h'

lemma parentIdOf_some {g : RoleGraph} {j i : Nat} (h : parentIdOf g j = some i) :
    ∃ rj, getRole g j = some rj ∧ rj.parent_id = some i := by
  unfold parentIdOf at h
  cases hgj : getRole g j with
  | none => rw [hgj] at h; cases h
  | some rj =>
    rw [hgj] at h
    have h' : (match roleParent g rj with
      | none => none
      | some p => some p.id) = some i := h
    cases hp : roleParent g rj with
    | none => rw [hp] at h'; cases h'
    | some p =>
      rw [hp] at h'
      injection h' with h'
      refine ⟨rj, rfl, ?_⟩
      unfold roleParent at hp
      cases hq : rj.parent_id with
      | none => rw [hq] at hp; cases hp
      | some q =>
        rw [hq] at hp
        have hpq : p.id = q := (getRole_mem hp).2
        rw [← h', ← hpq]

lemma no_self_parent {g : RoleGraph} (ha : Acyclic g) (j : Nat) :
    parentIdOf g j ≠ some j := by
  intro h
  obtain ⟨rj, hgj, hpar⟩ := parentIdOf_some h
  have hjid : rj.id = j := (getRole_mem hgj).2
  have hself : roleParent g rj = some rj := by
    unfold roleParent
    rw [hpar]
    exact hgj
  have hw : walkN g 1 (some rj) = some rj := by
    have h1 : walkN g 1 (some rj) = roleParent g rj := rfl
    rw [h1, hself]
  have := no_return (ha rj (getRole_mem hgj).1) hw
  omega

lemma popLevel_setLevel {g : RoleGraph} {i lvl j : Nat} (h : parentIdOf g j ≠ some i) :
    popLevel (setLevel g i lvl) j = popLevel g j := by
  unfold popLevel
  rw [getRole_setLevel]
  cases hgj : getRole g j with
  | none => rfl
  | some rj =>
    show expectedLevel (setLevel g i lvl) (lvlAdj i lvl rj) = expectedLevel g rj
    have hpar : (lvlAdj i lvl rj).parent_id = rj.parent_id := by
      unfold lvlAdj
      by_cases hc : rj.id = i <;> simp [hc]
    unfold expectedLevel roleParent
    rw [hpar]
    cases hq : rj.parent_id with
    | none => rfl
    | some q =>
      show (match getRole (setLevel g i lvl) q with
        | none => 0
        | some p => p.level + 1)
        = (match getRole g q with
        | none => 0
        | some p => p.level + 1)
      rw [getRole_setLevel]
      cases hgq : getRole g q with
      | none => rfl
      | some p =>
        show (lvlAdj i lvl p).level + 1 = p.level + 1
        have hpi : p.id ≠ i := by
          intro hpi
          apply h
          unfold parentIdOf
          rw [hgj]
          show (match roleParent g rj with
            | none => none
            | some pp => some pp.id) = some i
          unfold roleParent
          rw [hq]
          show (match getRole g q with
            | none => none
            | some pp => some pp.id) = some i
          rw [hgq]
          show some p.id = some i
          rw [hpi]
        unfold lvlAdj
        rw [if_neg hpi]

lemma levelAt_setParentId (g : RoleGraph) (i : Nat) (p : Option Nat) (j : Nat) :
    levelAt (setParentId g i p) j = levelAt g j := by
  unfold levelAt
  rw [getRole_setParentId]
  cases hgj : getRole g j with
  | none => rfl
  | some rj =>
    show (parAdj i p rj).level = rj.level
    unfold parAdj
    by_cases hc : rj.id = i <;> simp [hc]

lemma popLevel_setParentId {g : RoleGraph} {i : Nat} {p : Option Nat} {j : Nat}
    (hne : j ≠ i) : popLevel (setParentId g i p) j = popLevel g j := by
  unfold popLevel
  rw [getRole_setParentId]
  cases hgj : getRole g j with
  | none => rfl
  | some rj =>
    have hjid : rj.id = j := (getRole_mem hgj).2
    show expectedLevel (setParentId g i p) (parAdj i p rj) = expectedLevel g rj
    have hadj : parAdj i p rj = rj := parAdj_eq_of_ne (by rw [hjid]; exact hne)
    rw [hadj]
    unfold expectedLevel roleParent
    cases hq : rj.parent_id with
    | none => rfl
    | some q =>
      show (match getRole (setParentId g i p) q with
        | none => 0
        | some pr => pr.level + 1)
        = (match getRole g q with
        | none => 0
        | some pr => pr.level + 1)
      rw [getRole_setParentId]
      cases hgq : getRole g q with
      | none => rfl
      | some pr =>
        show (parAdj i p pr).level + 1 = pr.level + 1
        unfold parAdj
        by_cases hc : pr.id = i <;> simp [hc]

lemma mem_touchedF {g : RoleGraph} {l : List Nat} {j : Nat} :
    j ∈ touchedF g l ↔ j ∈ ids g ∧ ∃ c ∈ l, InSubtree g c j := by
  unfold touchedF
  rw [Finset.mem_filter]
  unfold idsF
  rw [List.mem_toFinset]

lemma touched_card_le (g : RoleGraph) (l : List Nat) : (touchedF g l).card ≤ g.length := by
  have h1 : touchedF g l ⊆ idsF g := Finset.filter_subset _ _
  have h2 := Finset.card_le_card h1
  have h3 : (idsF g).card ≤ (ids g).length := List.toFinset_card_le _
  have h4 : (ids g).length = g.length := by unfold ids; rw [List.length_map]
  omega

lemma structEq_touchedF {g g' : RoleGraph} (h : StructEq g g') (l : List Nat) :
    touchedF g l = touchedF g' l := by
  apply Finset.ext
  intro j
  rw [mem_touchedF, mem_touchedF, structEq_ids h]
  constructor
  · rintro ⟨hj, c, hc, hsub⟩
    exact ⟨hj, c, hc, (structEq_inSubtree h c j).mp hsub⟩
  · rintro ⟨hj, c, hc, hsub⟩
    exact ⟨hj, c, hc, (structEq_inSubtree h c j).mpr hsub⟩

lemma child_sub {g : RoleGraph} (hn : NodupIds g) (ha : Acyclic g) {rid : Nat}
    (hrid : rid ∈ ids g) {ca : Role} (hca : ca ∈ childrenOf g rid) {j : Nat}
    (h : InSubtree g ca.id j) : InSubtree g rid j :=
  inSubtree_trans hn ha (child_inSubtree hn ha hca hrid) h

lemma outside_of_children {g : RoleGraph} (hn : NodupIds g) (ha : Acyclic g) {rid j : Nat}
    (hne : j ≠ rid) (hch : ∀ ca ∈ childrenOf g rid, ¬ InSubtree g ca.id j) :
    ¬ InSubtree g rid j := by
  intro hsub
  obtain ⟨ca, hca, hcasub⟩ := subtree_step_down hn ha hsub hne
  exact hch ca hca hcasub

/-- Popping a live worklist head strictly shrinks the set of ids the worklist
still touches: the head leaves, its subtree stays covered by its children. -/
lemma touched_step {g : RoleGraph} (hn : NodupIds g) (ha : Acyclic g) {rid : Nat}
    (hrid : rid ∈ ids g) {rest : List Nat}
    (hdisj : ∀ b ∈ rest, ∀ j, InSubtree g rid j → InSubtree g b j → False) :
    (touchedF g (((childrenOf g rid).map (·.id)) ++ rest)).card + 1
      ≤ (touchedF g (rid :: rest)).card := by
  have hmem : rid ∈ touchedF g (rid :: rest) :=
    mem_touchedF.mpr ⟨hrid, rid, List.mem_cons_self rid rest, inSubtree_self hrid⟩
  have hsub : touchedF g (((childrenOf g rid).map (·.id)) ++ rest)
      ⊆ (touchedF g (rid :: rest)).erase rid := by
    intro j hj
    obtain ⟨hjids, c, hc, hsubc⟩ := mem_touchedF.mp hj
    rcases List.mem_append.mp hc with hcch | hcrest
    · obtain ⟨ca, hca, rfl⟩ := List.mem_map.mp hcch
      refine Finset.mem_erase.mpr ⟨?_, mem_touchedF.mpr ⟨hjids, rid,
        List.mem_cons_self _ _, child_sub hn ha hrid hca hsubc⟩⟩
      intro hjrid
      rw [hjrid] at hsubc
      exact c_not_in_child_subtree hn ha hca hrid hsubc
    · refine Finset.mem_erase.mpr ⟨?_, mem_touchedF.mpr ⟨hjids, c,
        List.mem_cons_of_mem _ hcrest, hsubc⟩⟩
      intro hjrid
      rw [hjrid] at hsubc
      exact hdisj c hcrest rid (inSubtree_self hrid) hsubc
  have h1 := Finset.card_le_card hsub
  have h2 : ((touchedF g (rid :: rest)).erase rid).card
      = (touchedF g (rid :: rest)).card - 1 := Finset.card_erase_of_mem hmem
  have h3 : 0 < (touchedF g (rid :: rest)).card := Finset.card_pos.mpr ⟨rid, hmem⟩
  omega

/-- Replacing a live worklist head by its children keeps the listed subtrees
pairwise disjoint. -/
lemma pairwise_step {g : RoleGraph} (hn : NodupIds g) (ha : Acyclic g) {rid : Nat}
    (hrid : rid ∈ ids g) {rest : List Nat}
    (hdisj : ∀ b ∈ rest, ∀ j, InSubtree g rid j → InSubtree g b j → False)
    (hrest : List.Pairwise (fun a b => ∀ j, InSubtree g a j → InSubtree g b j → False) rest) :
    List.Pairwise (fun a b => ∀ j, InSubtree g a j → InSubtree g b j → False)
      (((childrenOf g rid).map (·.id)) ++ rest) := by
  rw [List.pairwise_append]
  refine ⟨?_, hrest, ?_⟩
  · rw [List.pairwise_map]
    have hne : List.Pairwise (fun c₁ c₂ : Role => c₁.id ≠ c₂.id) (childrenOf g rid) :=
      List.pairwise_map.mp (childIds_nodup hn rid)
    refine List.Pairwise.imp_of_mem ?_ hne
    intro c₁ c₂ h₁ h₂ hneid j hj₁ hj₂
    exact sibling_disjoint hn ha h₁ h₂ hneid hrid hj₁ hj₂
  · intro a ha' b hb j hja hjb
    obtain ⟨ca, hca, rfl⟩ := List.mem_map.mp ha'
    exact hdisj b hb j (child_sub hn ha hrid hca hja) hjb

lemma updateLoop_step_some {fuel : Nat} {g : RoleGraph} {rid : Nat} {rest : List Nat}
    {r : Role} (hgr : getRole g rid = some r) :
    updateLoop (fuel + 1) g (rid :: rest)
      = updateLoop fuel (setLevel g rid (expectedLevel g r))
          (((childrenOf (setLevel g rid (expectedLevel g r)) rid).map (·.id)) ++ rest) := by
  rw [updateLoop_cons_succ, hgr]

/-- Main lemma on the `_update_hierarchy_levels` worklist: with live, pairwise
subtree-disjoint entries and fuel covering the touched ids, the loop returns;
and if the table was level-consistent outside the listed subtrees, the result
is consistent everywhere. -/
lemma updateLoop_main : ∀ (fuel : Nat) (g : RoleGraph) (l : List Nat),
    NodupIds g → Acyclic g →
    (∀ c ∈ l, c ∈ ids g) →
    List.Pairwise (fun a b => ∀ j, InSubtree g a j → InSubtree g b j → False) l →
    (touchedF g l).card ≤ fuel →
    ∃ g₂, updateLoop fuel g l = some g₂ ∧
      ((∀ j ∈ ids g, (∀ c ∈ l, ¬ InSubtree g c j) → levelAt g j = popLevel g j) →
        Consistent g₂) := by
  intro fuel
  induction fuel with
  | zero =>
    intro g l hn ha hlive hpw hcard
    cases l with
    | nil =>
      refine ⟨g, updateLoop_nil, ?_⟩
      intro hcons
      exact consistent_pointwise hn
        (fun j hj => hcons j hj (fun c hc => absurd hc (List.not_mem_nil c)))
    | cons rid rest =>
      exfalso
      have hrid : rid ∈ ids g := hlive rid (List.mem_cons_self _ _)
      have hm : rid ∈ touchedF g (rid :: rest) :=
        mem_touchedF.mpr ⟨hrid, rid, List.mem_cons_self _ _, inSubtree_self hrid⟩
      have hpos := Finset.card_pos.mpr ⟨rid, hm⟩
      omega
  | succ fuel ih =>
    intro g l hn ha hlive hpw hcard
    cases l with
    | nil =>
      refine ⟨g, updateLoop_nil, ?_⟩
      intro hcons
      exact consistent_pointwise hn
        (fun j hj => hcons j hj (fun c hc => absurd hc (List.not_mem_nil c)))
    | cons rid rest =>
      have hrid : rid ∈ ids g := hlive rid (List.mem_cons_self _ _)
      have hgs : (getRole g rid).isSome = true := getRole_isSome.mpr hrid
      match hgr : getRole g rid with
      | none => rw [hgr] at hgs; simp at hgs
      | some r =>
        obtain ⟨hdisj, hrestpw⟩ := List.pairwise_cons.mp hpw
        have hse : StructEq g (setLevel g rid (expectedLevel g r)) :=
          setLevel_structEq g rid (expectedLevel g r)
        have hn₁ : NodupIds (setLevel g rid (expectedLevel g r)) := structEq_nodupIds hse hn
        have ha₁ : Acyclic (setLevel g rid (expectedLevel g r)) := structEq_acyclic hse ha
        have hcid : (childrenOf (setLevel g rid (expectedLevel g r)) rid).map (·.id)
            = (childrenOf g rid).map (·.id) := (structEq_childIds hse rid).symm
        have hlive₁ : ∀ c ∈ ((childrenOf g rid).map (·.id)) ++ rest,
            c ∈ ids (setLevel g rid (expectedLevel g r)) := by
          intro c hc
          rw [setLevel_ids]
          rcases List.mem_append.mp hc with hcch | hcrest
          · obtain ⟨ca, hca, rfl⟩ := List.mem_map.mp hcch
            exact mem_ids.mpr ⟨ca, (mem_childrenOf.mp hca).1, rfl⟩
          · exact hlive c (List.mem_cons_of_mem _ hcrest)
        have hpwg : List.Pairwise (fun a b => ∀ j, InSubtree g a j → InSubtree g b j → False)
            (((childrenOf g rid).map (·.id)) ++ rest) :=
          pairwise_step hn ha hrid hdisj hrestpw
        have hpw₁ : List.Pairwise (fun a b => ∀ j,
            InSubtree (setLevel g rid (expectedLevel g r)) a j →
            InSubtree (setLevel g rid (expectedLevel g r)) b j → False)
            (((childrenOf g rid).map (·.id)) ++ rest) :=
          hpwg.imp (fun hab j hj₁ hj₂ =>
            hab j ((structEq_inSubtree hse _ j).mpr hj₁) ((structEq_inSubtree hse _ j).mpr hj₂))
        have hcard₁ : (touchedF (setLevel g rid (expectedLevel g r))
            (((childrenOf g rid).map (·.id)) ++ rest)).card ≤ fuel := by
          rw [← structEq_touchedF hse]
          have hstep := touched_step hn ha hrid hdisj
          omega
        obtain ⟨g₂, hrun, himp⟩ := ih (setLevel g rid (expectedLevel g r))
          (((childrenOf g rid).map (·.id)) ++ rest) hn₁ ha₁ hlive₁ hpw₁ hcard₁
        refine ⟨g₂, ?_, ?_⟩
        · rw [updateLoop_step_some hgr, hcid]
          exact hrun
        · intro hcons₀
          apply himp
          intro j hj₁ houts₁
          rw [setLevel_ids] at hj₁
          have houts : ∀ c ∈ ((childrenOf g rid).map (·.id)) ++ rest, ¬ InSubtree g c j :=
            fun c hc hsub => houts₁ c hc ((structEq_inSubtree hse c j).mp hsub)
          by_cases hjr : j = rid
          · rw [hjr, levelAt_setLevel_self hrid,
              popLevel_setLevel (no_self_parent ha rid), popLevel_eq hgr]
          · rw [levelAt_setLevel_ne hjr]
            have hpar : parentIdOf g j ≠ some rid := by
              intro hp
              obtain ⟨rj, hgj, hparid⟩ := parentIdOf_some hp
              have hjch : rj ∈ childrenOf g rid :=
                mem_childrenOf.mpr ⟨(getRole_mem hgj).1, hparid⟩
              have hjid : rj.id = j := (getRole_mem hgj).2
              have hjmem : j ∈ ((childrenOf g rid).map (·.id)) ++ rest :=
                List.mem_append.mpr (Or.inl (List.mem_map.mpr ⟨rj, hjch, hjid⟩))
              exact houts j hjmem (inSubtree_self hj₁)
            rw [popLevel_setLevel hpar]
            apply hcons₀ j hj₁
            intro c hc
            rcases List.mem_cons.mp hc with hcr | hcrest
            · rw [hcr]
              exact outside_of_children hn ha hjr
                (fun ca hca => houts ca.id
                  (List.mem_append.mpr (Or.inl (List.mem_map.mpr ⟨ca, hca, rfl⟩))))
            · exact houts c (List.mem_append.mpr (Or.inr hcrest))

lemma fixLoop_nil {fuel : Nat} {g : RoleGraph} {cnt : Nat} :
    fixLoop fuel g [] cnt = some (g, cnt) := by
  cases fuel <;> rfl

lemma fixLoop_cons_zero {g : RoleGraph} {p : Nat × Nat} {rest : List (Nat × Nat)}
    {cnt : Nat} : fixLoop 0 g (p :: rest) cnt = none := rfl

lemma fixLoop_step_none {fuel : Nat} {g : RoleGraph} {rid expected : Nat}
    {rest : List (Nat × Nat)} {cnt : Nat} (hgr : getRole g rid = none) :
    fixLoop (fuel + 1) g ((rid, expected) :: rest) cnt = fixLoop fuel g rest cnt := by
  show (match getRole g rid with
    | none => fixLoop fuel g rest cnt
    | some r =>
      let gc := if r.level = expected then (g, cnt) else (setLevel g rid expected, cnt + 1)
      fixLoop fuel gc.1
        (((childrenOf gc.1 rid).map (fun c : Role => (c.id, expected + 1))) ++ rest) gc.2)
    = fixLoop fuel g rest cnt
  rw [hgr]

lemma fixLoop_step_eq {fuel : Nat} {g : RoleGraph} {rid expected : Nat}
    {rest : List (Nat × Nat)} {cnt : Nat} {r : Role} (hgr : getRole g rid = some r)
    (hlv : r.level = expected) :
    fixLoop (fuel + 1) g ((rid, expected) :: rest) cnt
      = fixLoop fuel g (((childrenOf g rid).map (fun c : Role => (c.id, expected + 1))) ++ rest)
          cnt := by
  show (match getRole g rid with
    | none => fixLoop fuel g rest cnt
    | some r =>
      let gc := if r.level = expected then (g, cnt) else (setLevel g rid expected, cnt + 1)
      fixLoop fuel gc.1
        (((childrenOf gc.1 rid).map (fun c : Role => (c.id, expected + 1))) ++ rest) gc.2)
    = _
  rw [hgr]
  show (let gc := if r.level = expected then (g, cnt) else (setLevel g rid expected, cnt + 1)
    fixLoop fuel gc.1
      (((childrenOf gc.1 rid).map (fun c : Role => (c.id, expected + 1))) ++ rest) gc.2)
    = _
  rw [if_pos hlv]

lemma fixLoop_step_ne {fuel : Nat} {g : RoleGraph} {rid expected : Nat}
    {rest : List (Nat × Nat)} {cnt : Nat} {r : Role} (hgr : getRole g rid = some r)
    (hlv : ¬ r.level = expected) :
    fixLoop (fuel + 1) g ((rid, expected) :: rest) cnt
      = fixLoop fuel (setLevel g rid expected)
          (((childrenOf (setLevel g rid expected) rid).map
            (fun c => (c.id, expected + 1))) ++ rest)
          (cnt + 1) := by
  show (match getRole g rid with
    | none => fixLoop fuel g rest cnt
    | some r =>
      let gc := if r.level = expected then (g, cnt) else (setLevel g rid expected, cnt + 1)
      fixLoop fuel gc.1
        (((childrenOf gc.1 rid).map (fun c : Role => (c.id, expected + 1))) ++ rest) gc.2)
    = _
  rw [hgr]
  show (let gc := if r.level = expected then (g, cnt) else (setLevel g rid expected, cnt + 1)
    fixLoop fuel gc.1
      (((childrenOf gc.1 rid).map (fun c : Role => (c.id, expected + 1))) ++ rest) gc.2)
    = _
  rw [if_neg hlv]

/-- Main lemma on the `fix_role_and_children` worklist: with live, pairwise
subtree-disjoint entries and fuel covering the touched ids, the loop returns;
and on a level-consistent table whose worklist carries the already-stored
levels, it changes nothing and counts no fix. -/
lemma fixLoop_main : ∀ (fuel : Nat) (g : RoleGraph) (l : List (Nat × Nat)) (cnt : Nat),
    NodupIds g → Acyclic g →
    (∀ p ∈ l, p.1 ∈ ids g) →
    List.Pairwise (fun a b => ∀ j, InSubtree g a.1 j → InSubtree g b.1 j → False) l →
    (touchedF g (l.map Prod.fst)).card ≤ fuel →
    ∃ out, fixLoop fuel g l cnt = some out ∧
      (Consistent g → (∀ p ∈ l, levelAt g p.1 = p.2) → out = (g, cnt)) := by
  intro fuel
  induction fuel with
  | zero =>
    intro g l cnt hn ha hlive hpw hcard
    cases l with
    | nil => exact ⟨(g, cnt), fixLoop_nil, fun _ _ => rfl⟩
    | cons p rest =>
      exfalso
      have hrid : p.1 ∈ ids g := hlive p (List.mem_cons_self _ _)
      have hm : p.1 ∈ touchedF g ((p :: rest).map Prod.fst) :=
        mem_touchedF.mpr ⟨hrid, p.1, List.mem_map.mpr ⟨p, List.mem_cons_self _ _, rfl⟩,
          inSubtree_self hrid⟩
      have hpos := Finset.card_pos.mpr ⟨p.1, hm⟩
      omega
  | succ fuel ih =>
    intro g l cnt hn ha hlive hpw hcard
    cases l with
    | nil => exact ⟨(g, cnt), fixLoop_nil, fun _ _ => rfl⟩
    | cons p rest =>
      obtain ⟨rid, e⟩ := p
      have hrid : rid ∈ ids g := hlive (rid, e) (List.mem_cons_self _ _)
      have hgs : (getRole g rid).isSome = true := getRole_isSome.mpr hrid
      match hgr : getRole g rid with
      | none => rw [hgr] at hgs; simp at hgs
      | some r =>
        obtain ⟨hdisjp, hrestpw⟩ := List.pairwise_cons.mp hpw
        have hdisj : ∀ b ∈ rest.map Prod.fst, ∀ j,
            InSubtree g rid j → InSubtree g b j → False := by
          intro b hb j hj₁ hj₂
          obtain ⟨q, hq, rfl⟩ := List.mem_map.mp hb
          exact hdisjp q hq j hj₁ hj₂
        have hrestids : List.Pairwise
            (fun a b => ∀ j, InSubtree g a j → InSubtree g b j → False)
            (rest.map Prod.fst) := List.pairwise_map.mpr hrestpw
        have hnewids : List.Pairwise
            (fun a b => ∀ j, InSubtree g a j → InSubtree g b j → False)
            (((childrenOf g rid).map (·.id)) ++ rest.map Prod.fst) :=
          pairwise_step hn ha hrid hdisj hrestids
        have hcard' : (touchedF g (rid :: rest.map Prod.fst)).card ≤ fuel + 1 := hcard
        have hstep := touched_step hn ha hrid hdisj
        by_cases hlv : r.level = e
        · -- the stored level already matches: the table is left alone
          have hmapeq : ((((childrenOf g rid).map (fun c : Role => (c.id, e + 1))) ++ rest).map
              Prod.fst) = ((childrenOf g rid).map (·.id)) ++ rest.map Prod.fst := by
            rw [List.map_append, List.map_map]
            rfl
          have hlive₁ : ∀ q ∈ ((childrenOf g rid).map (fun c : Role => (c.id, e + 1))) ++ rest,
              q.1 ∈ ids g := by
            intro q hq
            rcases List.mem_append.mp hq with hqch | hqrest
            · obtain ⟨ca, hca, rfl⟩ := List.mem_map.mp hqch
              exact mem_ids.mpr ⟨ca, (mem_childrenOf.mp hca).1, rfl⟩
            · exact hlive q (List.mem_cons_of_mem _ hqrest)
          have hpw₁ : List.Pairwise (fun a b => ∀ j,
              InSubtree g a.1 j → InSubtree g b.1 j → False)
              (((childrenOf g rid).map (fun c : Role => (c.id, e + 1))) ++ rest) :=
            List.pairwise_map.mp (by rw [hmapeq]; exact hnewids)
          have hcard₁ : (touchedF g
              (((((childrenOf g rid).map (fun c : Role => (c.id, e + 1))) ++ rest).map
                Prod.fst))).card ≤ fuel := by
            rw [hmapeq]
            omega
          obtain ⟨out, hrun, himp⟩ := ih g
            (((childrenOf g rid).map (fun c : Role => (c.id, e + 1))) ++ rest) cnt
            hn ha hlive₁ hpw₁ hcard₁
          refine ⟨out, ?_, ?_⟩
          · rw [fixLoop_step_eq hgr hlv]
            exact hrun
          · intro hc hlvl
            apply himp hc
            intro q hq
            rcases List.mem_append.mp hq with hqch | hqrest
            · obtain ⟨ca, hca, rfl⟩ := List.mem_map.mp hqch
              obtain ⟨hcag, hcap⟩ := mem_childrenOf.mp hca
              have hpc : roleParent g ca = some r := by
                unfold roleParent
                rw [hcap]
                exact hgr
              have hexp : expectedLevel g ca = r.level + 1 := by
                unfold expectedLevel
                rw [hpc]
              show levelAt g ca.id = e + 1
              rw [levelAt_eq hn hcag, hc ca hcag, hexp, hlv]
            · exact hlvl q (List.mem_cons_of_mem _ hqrest)
        · -- the stored level is wrong: overwrite it and recurse on the new table
          have hse : StructEq g (setLevel g rid e) := setLevel_structEq g rid e
          have hn₁ : NodupIds (setLevel g rid e) := structEq_nodupIds hse hn
          have ha₁ : Acyclic (setLevel g rid e) := structEq_acyclic hse ha
          have hcid : (childrenOf (setLevel g rid e) rid).map (·.id)
              = (childrenOf g rid).map (·.id) := (structEq_childIds hse rid).symm
          have hmapeq : ((((childrenOf (setLevel g rid e) rid).map
              (fun c : Role => (c.id, e + 1))) ++ rest).map Prod.fst)
              = ((childrenOf g rid).map (·.id)) ++ rest.map Prod.fst := by
            rw [List.map_append, List.map_map, ← hcid]
            rfl
          have hlive₁ : ∀ q ∈ ((childrenOf (setLevel g rid e) rid).map
              (fun c : Role => (c.id, e + 1))) ++ rest, q.1 ∈ ids (setLevel g rid e) := by
            intro q hq
            rcases List.mem_append.mp hq with hqch | hqrest
            · obtain ⟨ca, hca, rfl⟩ := List.mem_map.mp hqch
              exact mem_ids.mpr ⟨ca, (mem_childrenOf.mp hca).1, rfl⟩
            · rw [setLevel_ids]
              exact hlive q (List.mem_cons_of_mem _ hqrest)
          have hnewids₁ : List.Pairwise (fun a b => ∀ j,
              InSubtree (setLevel g rid e) a j → InSubtree (setLevel g rid e) b j → False)
              (((childrenOf g rid).map (·.id)) ++ rest.map Prod.fst) :=
            hnewids.imp (fun hab j hj₁ hj₂ =>
              hab j ((structEq_inSubtree hse _ j).mpr hj₁)
                ((structEq_inSubtree hse _ j).mpr hj₂))
          have hpw₁ : List.Pairwise (fun a b => ∀ j,
              InSubtree (setLevel g rid e) a.1 j → InSubtree (setLevel g rid e) b.1 j → False)
              (((childrenOf (setLevel g rid e) rid).map
                (fun c : Role => (c.id, e + 1))) ++ rest) :=
            List.pairwise_map.mp (by rw [hmapeq]; exact hnewids₁)
          have hcard₁ : (touchedF (setLevel g rid e)
              (((((childrenOf (setLevel g rid e) rid).map
                (fun c : Role => (c.id, e + 1))) ++ rest).map Prod.fst))).card ≤ fuel := by
            rw [hmapeq, ← structEq_touchedF hse]
            omega
          obtain ⟨out, hrun, _⟩ := ih (setLevel g rid e)
            (((childrenOf (setLevel g rid e) rid).map
              (fun c : Role => (c.id, e + 1))) ++ rest) (cnt + 1)
            hn₁ ha₁ hlive₁ hpw₁ hcard₁
          refine ⟨out, ?_, ?_⟩
          · rw [fixLoop_step_ne hgr hlv]
            exact hrun
          · intro hc hlvl
            exfalso
            have h1 : levelAt g rid = e := hlvl (rid, e) (List.mem_cons_self _ _)
            have h2 : levelAt g rid = r.level := by
              unfold levelAt
              rw [hgr]
            exact hlv (h2.symm.trans h1)

lemma mem_rootRoles {g : RoleGraph} {r : Role} :
    r ∈ rootRoles g ↔ r ∈ g ∧ r.parent_id = none := by
  unfold rootRoles
  rw [List.mem_filter]
  constructor
  · rintro ⟨h1, h2⟩
    exact ⟨h1, by simpa using h2⟩
  · rintro ⟨h1, h2⟩
    exact ⟨h1, by simp [h2]⟩

/-- Two distinct roots have disjoint subtrees: a walk that reaches one root
stops there and can never also reach the other. -/
lemma roots_disjoint {g : RoleGraph} (hn : NodupIds g) {a b : Role}
    (hag : a ∈ g) (hbg : b ∈ g) (haroot : a.parent_id = none) (hbroot : b.parent_id = none)
    (hne : a.id ≠ b.id) (j : Nat) : InSubtree g a.id j → InSubtree g b.id j → False := by
  intro hja hjb
  obtain ⟨k₁, ra, hga, hw₁⟩ := inSubtree_walk hn hja
  obtain ⟨k₂, rb, hgb, hw₂⟩ := inSubtree_walk hn hjb
  have hra : ra = a := by
    rw [getRole_self hn hag] at hga
    injection hga with h
    exact h.symm
  have hrb : rb = b := by
    rw [getRole_self hn hbg] at hgb
    injection hgb with h
    exact h.symm
  subst hra
  subst hrb
  have hstop : ∀ (m : Nat) (x : Role), x.parent_id = none →
      walkN g (m + 1) (some x) = none := by
    intro m x hx
    have h1 : walkN g (m + 1) (some x) = walkN g m (roleParent g x) := rfl
    have h2 : roleParent g x = none := by
      unfold roleParent
      rw [hx]
    rw [h1, h2, walkN_none]
  rcases Nat.le_total k₁ k₂ with hle | hle
  · have hd := walk_diff hw₁ hw₂ hle
    cases hdk : k₂ - k₁ with
    | zero =>
      rw [hdk, walkN_zero] at hd
      injection hd with hd
      exact hne (by rw [hd])
    | succ m =>
      rw [hdk, hstop m ra haroot] at hd
      cases hd
  · have hd := walk_diff hw₂ hw₁ hle
    cases hdk : k₁ - k₂ with
    | zero =>
      rw [hdk, walkN_zero] at hd
      injection hd with hd
      exact hne (by rw [hd])
    | succ m =>
      rw [hdk, hstop m rb hbroot] at hd
      cases hd

/-- `fix_hierarchy_levels` terminates on every cycle-free table with unique
keys — fuel `g.length + 1` covers the whole forest — and on an already
consistent table it rewrites nothing and reports `0` fixes. -/
lemma fixHierarchyLevels_main {g : RoleGraph} (hn : NodupIds g) (ha : Acyclic g) :
    ∃ out, fixHierarchyLevels g = some out ∧ (Consistent g → out = (g, 0)) := by
  have hlive : ∀ p ∈ (rootRoles g).map (fun r => (r.id, 0)), p.1 ∈ ids g := by
    intro p hp
    obtain ⟨r, hr, rfl⟩ := List.mem_map.mp hp
    exact mem_ids.mpr ⟨r, (mem_rootRoles.mp hr).1, rfl⟩
  have hpw : List.Pairwise (fun a b => ∀ j, InSubtree g a.1 j → InSubtree g b.1 j → False)
      ((rootRoles g).map (fun r => (r.id, 0))) := by
    rw [List.pairwise_map]
    have hne : List.Pairwise (fun c₁ c₂ : Role => c₁.id ≠ c₂.id) (rootRoles g) := by
      have hsub : (rootRoles g).Sublist g := List.filter_sublist g
      have hn' : (g.map (·.id)).Nodup := hn
      have hnd : ((rootRoles g).map (·.id)).Nodup := (hsub.map (·.id)).nodup hn'
      exact List.pairwise_map.mp hnd
    refine List.Pairwise.imp_of_mem ?_ hne
    intro r₁ r₂ h₁ h₂ hneid j hj₁ hj₂
    exact roots_disjoint hn (mem_rootRoles.mp h₁).1 (mem_rootRoles.mp h₂).1
      (mem_rootRoles.mp h₁).2 (mem_rootRoles.mp h₂).2 hneid j hj₁ hj₂
  have hcard : (touchedF g (((rootRoles g).map (fun r => (r.id, 0))).map Prod.fst)).card
      ≤ g.length + 1 :=
    le_trans (touched_card_le _ _) (Nat.le_succ _)
  obtain ⟨out, hrun, himp⟩ := fixLoop_main (g.length + 1) g
    ((rootRoles g).map (fun r => (r.id, 0))) 0 hn ha hlive hpw hcard
  refine ⟨out, hrun, ?_⟩
  intro hc
  apply himp hc
  intro p hp
  obtain ⟨r, hr, rfl⟩ := List.mem_map.mp hp
  obtain ⟨hrg, hroot⟩ := mem_rootRoles.mp hr
  show levelAt g r.id = 0
  have hexp : expectedLevel g r = 0 := by
    unfold expectedLevel roleParent
    rw [hroot]
  rw [levelAt_eq hn hrg, hc r hrg, hexp]

/-- `set_role_parent` keeps the stored levels consistent: after the
`_update_hierarchy_levels` cascade every row again stores
`expected_level`. -/
lemma setRoleParent_consistent {g : RoleGraph} {rid : Nat} {pid : Option Nat}
    {g₂ : RoleGraph} (hinv : HierInv g) (hc : Consistent g)
    (h : setRoleParent g rid pid = .ok g₂) : Consistent g₂ := by
  obtain ⟨hn, hz, hpo, ha⟩ := hinv
  obtain ⟨ridrow, hgr, hval, hup⟩ := setRoleParent_ok h
  have hn' : NodupIds (setParentId g rid pid) := by
    unfold NodupIds
    rw [setParentId_ids]
    exact hn
  have ha' : Acyclic (setParentId g rid pid) := setParentId_acyclic hn hz ha hgr hval
  have hrid : rid ∈ ids g := mem_ids.mpr ⟨ridrow, (getRole_mem hgr).1, (getRole_mem hgr).2⟩
  have hrid' : rid ∈ ids (setParentId g rid pid) := by
    rw [setParentId_ids]
    exact hrid
  obtain ⟨g₂', hrun, himp⟩ := updateLoop_main ((setParentId g rid pid).length + 1)
    (setParentId g rid pid) [rid] hn' ha'
    (fun c hc' => by rw [List.mem_singleton] at hc'; rw [hc']; exact hrid')
    (List.pairwise_singleton _ rid)
    (le_trans (touched_card_le _ _) (Nat.le_succ _))
  have hg₂ : g₂' = g₂ := by
    rw [hrun] at hup
    injection hup with h'
  rw [← hg₂]
  apply himp
  intro j hj houts
  have hnotin := houts rid (List.mem_singleton.mpr rfl)
  have hne : j ≠ rid := by
    intro hjr
    rw [hjr] at hnotin
    exact hnotin (inSubtree_self hrid')
  rw [levelAt_setParentId, popLevel_setParentId hne]
  rw [setParentId_ids] at hj
  exact consistent_levelAt hn hc j hj

lemma applyOpState_invC {g : RoleGraph} (op : HierOp) (h : HierInvC g) :
    HierInvC (applyOpState g op) := by
  obtain ⟨hinv, hc⟩ := h
  refine ⟨applyOpState_inv op hinv, ?_⟩
  unfold applyOpState
  cases hop : applyOp g op with
  | error e => exact hc
  | ok g₂ =>
    cases op with
    | create i nm p => exact createRole_consistent hinv hc hop
    | reparent rid p => exact setRoleParent_consistent hinv hc hop

lemma applyOps_invC {g : RoleGraph} (ops : List HierOp) (h : HierInvC g) :
    HierInvC (applyOps g ops) := by
  induction ops generalizing g with
  | nil => exact h
  | cons op rest ih =>
    rw [applyOps_cons]
    exact ih (applyOpState_invC op h)

lemma incorrectLevelIssues_nil_of_consistent {g : RoleGraph} (hc : Consistent g) :
    incorrectLevelIssues g = [] := by
  unfold incorrectLevelIssues
  have hflt : g.filter (fun r => r.level != expectedLevel g r) = [] := by
    rw [List.filter_eq_nil_iff]
    intro r hr
    simp [hc r hr]
  rw [hflt]
  rfl

/-- On the corrupt two-cycle table the cascade never returns: whatever levels
the writes have produced so far (any table with `gCyc`'s skeleton), popping
`1` pushes `2` and popping `2` pushes `1`, for ever — there is no visited
guard to stop it. -/
lemma cyc_loops : ∀ (fuel : Nat) (g' : RoleGraph), StructEq gCyc g' →
    ∀ rid, rid = 1 ∨ rid = 2 → updateLoop fuel g' [rid] = none := by
  intro fuel
  induction fuel with
  | zero =>
    intro g' hse rid hr
    exact updateLoop_cons_zero
  | succ fuel ih =>
    intro g' hse rid hr
    have hids : ids g' = [1, 2] := by
      rw [← structEq_ids hse]
      rfl
    have hrid : rid ∈ ids g' := by
      rw [hids]
      rcases hr with h | h <;> simp [h]
    have hgs : (getRole g' rid).isSome = true := getRole_isSome.mpr hrid
    match hgr : getRole g' rid with
    | none => rw [hgr] at hgs; simp at hgs
    | some r =>
      rw [updateLoop_step_some hgr]
      have hse₁ : StructEq gCyc (setLevel g' rid (expectedLevel g' r)) :=
        structEq_trans hse (setLevel_structEq g' rid (expectedLevel g' r))
      have hch : ((childrenOf (setLevel g' rid (expectedLevel g' r)) rid).map (·.id))
          = (childrenOf gCyc rid).map (·.id) := (structEq_childIds hse₁ rid).symm
      rcases hr with h | h
      · subst h
        have hc1 : (childrenOf gCyc 1).map (·.id) = [2] := by decide
        rw [hch, hc1]
        exact ih (setLevel g' 1 (expectedLevel g' r)) hse₁ 2 (Or.inr rfl)
      · subst h
        have hc2 : (childrenOf gCyc 2).map (·.id) = [1] := by decide
        rw [hch, hc2]
        exact ih (setLevel g' 2 (expectedLevel g' r)) hse₁ 1 (Or.inl rfl)

/-- C7, corrected. What is true of the source: on a well-formed table (unique
keys, no `parent_id` cycle) both traversals do terminate, within a worklist
budget of one pop per role — but the bound is structural (each role is popped
at most once because subtrees of distinct worklist entries are disjoint), not
the work of any visited guard: neither `_update_hierarchy_levels` nor
`fix_role_and_children` carries one, and no `CycleDetected` is surfaced by
either. Against already-corrupt cyclic data the claim fails: the cascade
recurses for ever (third conjunct: still running at every fuel). -/
theorem C7_traversal_termination :
    (∀ (g : RoleGraph) (rid : Nat), NodupIds g → Acyclic g → rid ∈ ids g →
      ∃ g₂, updateHierarchyLevels g rid (g.length + 1) = some g₂)
    ∧ (∀ g : RoleGraph, NodupIds g → Acyclic g → ∃ out, fixHierarchyLevels g = some out)
    ∧ (∀ fuel : Nat, updateHierarchyLevels gCyc 1 fuel = none) := by
  refine ⟨?_, ?_, ?_⟩
  · intro g rid hn ha hrid
    obtain ⟨g₂, hrun, _⟩ := updateLoop_main (g.length + 1) g [rid] hn ha
      (fun c hc => by rw [List.mem_singleton] at hc; rw [hc]; exact hrid)
      (List.pairwise_singleton _ rid)
      (le_trans (touched_card_le _ _) (Nat.le_succ _))
    exact ⟨g₂, hrun⟩
  · intro g hn ha
    obtain ⟨out, hrun, _⟩ := fixHierarchyLevels_main hn ha
    exact ⟨out, hrun⟩
  · intro fuel
    exact cyc_loops fuel gCyc rfl 1 (Or.inl rfl)

/-- C7, counterexample to the claim as written: on the corrupt cycle `1 ↔ 2`
the `set_parent` cascade is still running after 2 pops and after 100 pops
(it never returns), and `fix_hierarchy_levels` — whose worklist of roots is
empty here — returns successfully without surfacing any cycle error, leaving
the corrupt row (id `1`, wrong level) in place. -/
theorem C7_counterexample :
    updateHierarchyLevels gCyc 1 2 = none
    ∧ updateHierarchyLevels gCyc 1 100 = none
    ∧ fixHierarchyLevels gCyc = some (gCyc, 0)
    ∧ incorrectLevelIssues gCyc = [1] := by
  decide

theorem C7_traversal_termination_witness :
    (∃ g₂, updateHierarchyLevels gW 2 (gW.length + 1) = some g₂)
    ∧ (∃ out, fixHierarchyLevels gW = some out)
    ∧ updateHierarchyLevels gCyc 1 7 = none :=
  ⟨C7_traversal_termination.1 gW 2 (by decide) (by decide) (by decide),
   C7_traversal_termination.2.1 gW (by decide) (by decide),
   C7_traversal_termination.2.2 7⟩

/-- C8: starting from any table satisfying the service's standing invariant
with consistent levels (the empty table included), after any sequence of
creates and reparents `fix_hierarchy_levels` terminates, changes nothing,
reports `0` fixes, and `validate_hierarchy_integrity` reports zero
`incorrect_level` issues: every stored level already equals
`expected_level`. -/
theorem C8_fix_then_validate (g₀ : RoleGraph) (ops : List HierOp) (h : HierInvC g₀) :
    fixHierarchyLevels (applyOps g₀ ops) = some (applyOps g₀ ops, 0)
    ∧ incorrectLevelIssues (applyOps g₀ ops) = [] := by
  obtain ⟨⟨hn, hz, hpo, ha⟩, hc⟩ := applyOps_invC ops h
  obtain ⟨out, hrun, himp⟩ := fixHierarchyLevels_main hn ha
  have hout := himp hc
  rw [hout] at hrun
  exact ⟨hrun, incorrectLevelIssues_nil_of_consistent hc⟩

theorem C8_fix_then_validate_witness :
    fixHierarchyLevels (applyOps [] [HierOp.create 1 "a" none,
        HierOp.create 2 "b" (some 1), HierOp.reparent 2 none])
      = some (applyOps [] [HierOp.create 1 "a" none,
        HierOp.create 2 "b" (some 1), HierOp.reparent 2 none], 0)
    ∧ incorrectLevelIssues (applyOps [] [HierOp.create 1 "a" none,
        HierOp.create 2 "b" (some 1), HierOp.reparent 2 none]) = [] :=
  C8_fix_then_validate [] [HierOp.create 1 "a" none,
      HierOp.create 2 "b" (some 1), HierOp.reparent 2 none]
    ⟨⟨by decide, by decide, fun r hr => absurd hr (List.not_mem_nil r),
      fun r hr => absurd hr (List.not_mem_nil r)⟩,
      fun r hr => absurd hr (List.not_mem_nil r)⟩

end LocalCmapi
